import Mathlib

/-!
Verification development for the `personal-media-manager` backend.

The Python source under `backend/` is shallowly embedded: Python `str` values
become `List Char`, dictionaries become association lists, filesystem state is
an explicit snapshot record, and fallible code returns `Except`.  Each claim of
the specification is settled by a theorem about these embeddings.
-/

namespace PMM

/-! ## Python string primitives (shared by several embeddings)

Python strings are modelled as `List Char`.  `pyStrip` models `str.strip()`
restricted to ASCII whitespace, `pyLower` models `str.lower()` via
`Char.toLower`, and `pyReplaceBackslash` models `str.replace("\\", "/")`.
-/

def pyIsSpace (c : Char) : Bool :=
  c = ' ' || c = '\t' || c = '\n' || c = '\r' || c = '\x0b' || c = '\x0c'

def pyStrip (s : List Char) : List Char :=
  ((s.dropWhile pyIsSpace).reverse.dropWhile pyIsSpace).reverse

def pyLower (s : List Char) : List Char :=
  s.map Char.toLower

def pyReplaceBackslash (s : List Char) : List Char :=
  s.map (fun c => if c = '\\' then '/' else c)

/-- Model of Python `s.split("/")`: splits on every slash, keeping empty
segments, so that `splitSlash "".data = [[]]` as in Python. -/
def splitSlash : List Char → List (List Char)
  | [] => [[]]
  | c :: rest =>
    if c = '/' then [] :: splitSlash rest
    else
      match splitSlash rest with
      | [] => [[c]]
      | seg :: segs => (c :: seg) :: segs

theorem splitSlash_ne_nil (s : List Char) : splitSlash s ≠ [] := by
  induction s with
  | nil => simp [splitSlash]
  | cons c rest ih =>
    unfold splitSlash
    by_cases h : c = '/'
    · simp [h]
    · simp only [h, if_false]
      cases hs : splitSlash rest <;> simp

/-! ## C9: the index cache (`_IndexCache.get` in `backend/api/server.py`)

The cache holds a single optional slot; `get` returns the slot unless a
refresh is forced or the slot is empty, in which case it runs the build and
installs its result.  The build is modelled by its outcome, an
`Except ε α`; the Python assignment `self._index = build_media_index(...)` only
happens when the build returns normally, which the `Except` match captures.
The double-checked locking reduces to a single check in this sequential
model. -/

def cacheGet {α ε : Type} (slot : Option α) (refresh : Bool) (build : Except ε α) :
    Except ε α × Option α :=
  match refresh, slot with
  | false, some idx => (Except.ok idx, some idx)
  | true, _ =>
    match build with
    | Except.ok idx => (Except.ok idx, some idx)
    | Except.error e => (Except.error e, slot)
  | false, none =>
    match build with
    | Except.ok idx => (Except.ok idx, some idx)
    | Except.error e => (Except.error e, slot)

/-- C9: if the index build raises inside `_IndexCache.get` (which requires the
build to actually run, i.e. `refresh` is set or the slot is empty), the cached
slot is left unchanged, the caller observes the raised exception, and a
subsequent `get` without refresh still returns a previously installed index. -/
theorem c9_cache_build_error {α ε : Type} (slot : Option α) (refresh : Bool)
    (e : ε) (build : Except ε α)
    (hb : build = Except.error e)
    (hrun : refresh = true ∨ slot = none) :
    cacheGet slot refresh build = (Except.error e, slot) ∧
      (∀ idx : α, slot = some idx →
        ∀ laterBuild : Except ε α, (cacheGet slot false laterBuild).1 = Except.ok idx) := by
  subst hb
  constructor
  · rcases hrun with h | h
    · subst h; cases slot <;> rfl
    · subst h; cases refresh <;> rfl
  · intro idx hslot laterBuild
    subst hslot
    rfl

/-- Witness for C9 at a concrete state: slot holds `7`, a forced refresh whose
build fails leaves the slot at `7` and a later plain `get` returns `7`. -/
theorem c9_cache_build_error_witness :
    cacheGet (some 7) true (Except.error "boom") = (Except.error "boom", some 7) ∧
      (∀ idx : Nat, (some 7 : Option Nat) = some idx →
        ∀ laterBuild : Except String Nat,
          (cacheGet (some 7) false laterBuild).1 = Except.ok idx) :=
  c9_cache_build_error (some 7) true "boom" (Except.error "boom") rfl (Or.inl rfl)

/-! ## Media types (`backend/indexing/media_types.py`) -/

/-- JSON values, as produced by `json.loads`. -/
inductive JsonVal
  | str (s : List Char)
  | num (n : Int)
  | boolean (b : Bool)
  | null
  | arr (xs : List JsonVal)
  | obj (kvs : List (List Char × JsonVal))

/-- Errors raised by media-types loading: `notList`/`notString` model the
`TypeError`s and `missingDot` the `ValueError` of `_normalize_ext_list`;
`notObject` models the `TypeError` for a non-object config file. -/
inductive ExtErr
  | notList
  | notString
  | missingDot (raw : List Char)
  | notObject
deriving DecidableEq

theorem toNat_ofNat_small (n : Nat) (h : n < 55296) : (Char.ofNat n).toNat = n := by
  have hv : n.isValidChar := Or.inl h
  simp [Char.ofNat, hv, Char.ofNatAux, Char.toNat, UInt32.toNat, BitVec.toNat_ofNat]

theorem toLower_eq_dot_iff (c : Char) : Char.toLower c = '.' ↔ c = '.' := by
  constructor
  · intro h
    unfold Char.toLower at h
    by_cases hr : c.toNat ≥ 65 ∧ c.toNat ≤ 90
    · exfalso
      rw [if_pos hr] at h
      have h2 : (Char.ofNat (c.toNat + 32)).toNat = c.toNat + 32 :=
        toNat_ofNat_small _ (by omega)
      have h3 := congrArg Char.toNat h
      rw [h2] at h3
      have h4 : ('.').toNat = 46 := by decide
      omega
    · rw [if_neg hr] at h; exact h
  · intro h; subst h; decide

/-- Loop body of `_normalize_ext_list`: Python accumulates into a `set`,
modelled as a duplicate-free list. -/
def extListGo : List JsonVal → List (List Char) → Except ExtErr (List (List Char))
  | [], acc => Except.ok acc
  | v :: rest, acc =>
    match v with
    | JsonVal.str raw =>
      let ext := pyLower (pyStrip raw)
      if ext = [] then extListGo rest acc
      else if ext.head? = some '.' then
        extListGo rest (if ext ∈ acc then acc else acc ++ [ext])
      else Except.error (ExtErr.missingDot raw)
    | _ => Except.error ExtErr.notString

/-- Embedding of `_normalize_ext_list` from `media_types.py`. -/
def normalize_ext_list (values : JsonVal) : Except ExtErr (List (List Char)) :=
  match values with
  | JsonVal.arr xs => extListGo xs []
  | _ => Except.error ExtErr.notList

def DEFAULT_IMAGE_EXTS : List (List Char) :=
  [".jpg".data, ".jpeg".data, ".png".data, ".gif".data, ".bmp".data, ".webp".data,
   ".tif".data, ".tiff".data, ".heic".data, ".avif".data, ".svg".data]

def DEFAULT_VIDEO_EXTS : List (List Char) :=
  [".mp4".data, ".mkv".data, ".mov".data, ".avi".data, ".wmv".data, ".flv".data,
   ".webm".data, ".m4v".data, ".mpg".data, ".mpeg".data, ".ts".data]

def DEFAULT_GAME_EXTS : List (List Char) :=
  [".exe".data, ".bat".data, ".cmd".data, ".com".data, ".lnk".data, ".url".data]

structure MediaTypes where
  image_exts : List (List Char)
  video_exts : List (List Char)
  game_exts : List (List Char)

def MediaTypes.defaults : MediaTypes :=
  ⟨DEFAULT_IMAGE_EXTS, DEFAULT_VIDEO_EXTS, DEFAULT_GAME_EXTS⟩

/-- File categories; the source uses the strings "image"/"video"/"game"/"other". -/
inductive Category
  | image
  | video
  | game
  | other
deriving DecidableEq

/-- Embedding of `MediaTypes.categorize_ext`. -/
def MediaTypes.categorize_ext (mt : MediaTypes) (ext : List Char) : Category :=
  let e := pyLower ext
  if e ∈ mt.image_exts then Category.image
  else if e ∈ mt.video_exts then Category.video
  else if e ∈ mt.game_exts then Category.game
  else Category.other

def dictGet (k : List Char) : List (List Char × JsonVal) → Option JsonVal
  | [] => none
  | (k2, v) :: rest => if k2 = k then some v else dictGet k rest

/-- Embedding of `load_media_types` from the point where the config file has
been read and parsed into JSON `data` (file I/O and the file-absent default
path are outside the embedding). -/
def load_media_types_data (data : JsonVal) : Except ExtErr MediaTypes :=
  match data with
  | JsonVal.obj kvs => do
    let image_exts ← match dictGet "images".data kvs with
      | some v => normalize_ext_list v
      | none => Except.ok MediaTypes.defaults.image_exts
    let video_exts ← match dictGet "videos".data kvs with
      | some v => normalize_ext_list v
      | none => Except.ok MediaTypes.defaults.video_exts
    let game_exts ← match dictGet "games".data kvs with
      | some v => normalize_ext_list v
      | none => Except.ok MediaTypes.defaults.game_exts
    Except.ok ⟨image_exts, video_exts, game_exts⟩
  | _ => Except.error ExtErr.notObject

/-- C7 counterexample: a configured image list containing the literal `"  "`,
which is empty after trimming, does NOT fail loading — `_normalize_ext_list`
silently skips it — contradicting the claim that loading must fail. -/
theorem c7_counterexample :
    pyStrip "  ".data = [] ∧
      (load_media_types_data
        (JsonVal.obj [("images".data, JsonVal.arr [JsonVal.str "  ".data])])).isOk = true := by
  exact ⟨rfl, rfl⟩

/-- An extension literal that makes `_normalize_ext_list` fail: a non-string,
or a string that is nonempty after trimming and does not start with `.`. -/
def badExtLiteral (v : JsonVal) : Prop :=
  (∀ s, v ≠ JsonVal.str s) ∨
    ∃ s, v = JsonVal.str s ∧ pyStrip s ≠ [] ∧ (pyStrip s).head? ≠ some '.'

theorem pyLower_eq_nil_iff (t : List Char) : pyLower t = [] ↔ t = [] := by
  cases t <;> simp [pyLower]

theorem pyLower_head_dot_iff (t : List Char) :
    (pyLower t).head? = some '.' ↔ t.head? = some '.' := by
  cases t with
  | nil => simp [pyLower]
  | cons c r => simpa [pyLower] using toLower_eq_dot_iff c

theorem extListGo_error_iff (xs : List JsonVal) (acc : List (List Char)) :
    (extListGo xs acc).isOk = false ↔ ∃ v ∈ xs, badExtLiteral v := by
  induction xs generalizing acc with
  | nil => simp [extListGo, Except.isOk, Except.toBool]
  | cons v rest ih =>
    cases v with
    | str raw =>
      by_cases he : pyLower (pyStrip raw) = []
      · have hraw : pyStrip raw = [] := (pyLower_eq_nil_iff _).mp he
        have hstep : extListGo (JsonVal.str raw :: rest) acc = extListGo rest acc := by
          simp [extListGo, he]
        rw [hstep, ih]
        constructor
        · rintro ⟨w, hw, hbad⟩; exact ⟨w, List.mem_cons_of_mem _ hw, hbad⟩
        · rintro ⟨w, hw, hbad⟩
          rcases List.mem_cons.mp hw with hw | hw
          · exfalso; subst hw
            rcases hbad with h1 | ⟨s, hs, hne, _⟩
            · exact h1 raw rfl
            · cases hs; exact hne hraw
          · exact ⟨w, hw, hbad⟩
      · by_cases hd : (pyLower (pyStrip raw)).head? = some '.'
        · have hd2 : (pyStrip raw).head? = some '.' := (pyLower_head_dot_iff _).mp hd
          have hstep : extListGo (JsonVal.str raw :: rest) acc =
              extListGo rest (if pyLower (pyStrip raw) ∈ acc then acc
                else acc ++ [pyLower (pyStrip raw)]) := by
            simp [extListGo, he, hd]
          rw [hstep, ih]
          constructor
          · rintro ⟨w, hw, hbad⟩; exact ⟨w, List.mem_cons_of_mem _ hw, hbad⟩
          · rintro ⟨w, hw, hbad⟩
            rcases List.mem_cons.mp hw with hw | hw
            · exfalso; subst hw
              rcases hbad with h1 | ⟨s, hs, _, hsd⟩
              · exact h1 raw rfl
              · cases hs; exact hsd hd2
            · exact ⟨w, hw, hbad⟩
        · have hd2 : (pyStrip raw).head? ≠ some '.' := fun a =>
            hd ((pyLower_head_dot_iff _).mpr a)
          have hraw2 : pyStrip raw ≠ [] := fun a => he (by rw [a]; rfl)
          have hstep : extListGo (JsonVal.str raw :: rest) acc =
              Except.error (ExtErr.missingDot raw) := by
            simp [extListGo, he, hd]
          rw [hstep]
          constructor
          · intro _
            exact ⟨JsonVal.str raw, List.mem_cons_self _ _, Or.inr ⟨raw, rfl, hraw2, hd2⟩⟩
          · intro _; rfl
    | num n =>
      constructor
      · intro _
        exact ⟨JsonVal.num n, List.mem_cons_self _ _, Or.inl (fun s h => by cases h)⟩
      · intro _; rfl
    | boolean b =>
      constructor
      · intro _
        exact ⟨JsonVal.boolean b, List.mem_cons_self _ _, Or.inl (fun s h => by cases h)⟩
      · intro _; rfl
    | null =>
      constructor
      · intro _
        exact ⟨JsonVal.null, List.mem_cons_self _ _, Or.inl (fun s h => by cases h)⟩
      · intro _; rfl
    | arr ys =>
      constructor
      · intro _
        exact ⟨JsonVal.arr ys, List.mem_cons_self _ _, Or.inl (fun s h => by cases h)⟩
      · intro _; rfl
    | obj kvs =>
      constructor
      · intro _
        exact ⟨JsonVal.obj kvs, List.mem_cons_self _ _, Or.inl (fun s h => by cases h)⟩
      · intro _; rfl

/-- C7 amended: `_normalize_ext_list` (hence `load_media_types` on a configured
list) fails exactly when the list contains a non-string, or a string that is
nonempty after trimming and does not start with a dot; empty-after-trim
strings are silently skipped rather than failing. -/
theorem c7_ext_list_error_characterization (xs : List JsonVal) :
    (normalize_ext_list (JsonVal.arr xs)).isOk = false ↔ ∃ v ∈ xs, badExtLiteral v := by
  simpa [normalize_ext_list] using extListGo_error_iff xs []

/-! ## Sandbox path normalization (`backend/scanner/sandbox.py`) -/

/-- The distinct `SandboxViolation` raise sites of `normalize_rel_path`. -/
inductive SandboxViolation
  | absolutePath
  | uncPath
  | driveLetter
  | dotdotSegment
deriving DecidableEq

def isAsciiLetter (c : Char) : Bool :=
  ('A' ≤ c && c ≤ 'Z') || ('a' ≤ c && c ≤ 'z')

/-- Model of the regex test `_WIN_DRIVE_RE.match(rel_path)` for `^[A-Za-z]:`. -/
def hasDriveLetter : List Char → Bool
  | c1 :: c2 :: _ => isAsciiLetter c1 && c2 = ':'
  | _ => false

/-- Model of Python `"/".join(parts)`. -/
def joinSlash : List (List Char) → List Char
  | [] => []
  | [p] => p
  | p :: q :: rest => p ++ '/' :: joinSlash (q :: rest)

/-- Embedding of `normalize_rel_path` from `sandbox.py`. -/
def normalize_rel_path (input : List Char) : Except SandboxViolation (List Char) :=
  let s0 := pyStrip input
  if s0 = [] ∨ s0 = ['.'] then Except.ok []
  else
    let s := pyReplaceBackslash s0
    if s.head? = some '/' then Except.error SandboxViolation.absolutePath
    else if s.take 2 = ['/', '/'] then Except.error SandboxViolation.uncPath
    else if hasDriveLetter s then Except.error SandboxViolation.driveLetter
    else
      let parts := (splitSlash s).filter (fun p => p ≠ [] && p ≠ ['.'])
      if parts.any (fun p => p = ['.', '.']) then Except.error SandboxViolation.dotdotSegment
      else
        let normalized := joinSlash parts
        if normalized = [] ∨ normalized = ['.'] then Except.ok []
        else Except.ok normalized

/-- The trimmed, backslash-normalized input, as the claim describes it. -/
def normInput (input : List Char) : List Char :=
  pyReplaceBackslash (pyStrip input)

/-- The claim's rejection condition: absolute, UNC, drive-letter prefix, or a
`..` segment. -/
def claimRejects (input : List Char) : Prop :=
  (normInput input).head? = some '/' ∨
  (normInput input).take 2 = ['/', '/'] ∨
  hasDriveLetter (normInput input) = true ∨
  ['.', '.'] ∈ splitSlash (normInput input)

/-- The claim's returned value: the remaining segments joined by `/`, with
empty and `.` segments dropped. -/
def claimNormValue (input : List Char) : List Char :=
  joinSlash ((splitSlash (normInput input)).filter (fun p => p ≠ [] && p ≠ ['.']))

theorem take_two_slash (s : List Char) (h : s.head? ≠ some '/') :
    s.take 2 ≠ ['/', '/'] := by
  cases s with
  | nil => simp
  | cons a rest =>
    cases rest with
    | nil => simp
    | cons b rest2 =>
      intro hcontra
      simp [List.take] at hcontra
      exact h (by simp [hcontra.1])

theorem joinSlash_ne_dot (parts : List (List Char))
    (h : ∀ p ∈ parts, p ≠ [] ∧ p ≠ ['.']) : joinSlash parts ≠ ['.'] := by
  match parts with
  | [] => simp [joinSlash]
  | [p] =>
    simpa [joinSlash] using (h p (by simp)).2
  | p :: q :: rest =>
    have hp : p ≠ [] := (h p (by simp)).1
    intro hcontra
    have hlen := congrArg List.length hcontra
    simp [joinSlash] at hlen
    cases p with
    | nil => exact hp rfl
    | cons c cs => simp at hlen; omega

theorem dotdot_mem_filter (s : List Char) :
    (['.', '.'] ∈ (splitSlash s).filter (fun p => p ≠ [] && p ≠ ['.'])) ↔
      ['.', '.'] ∈ splitSlash s := by
  rw [List.mem_filter]
  simp

/-- C2: `normalize_rel_path` raises `SandboxViolation` exactly when the
trimmed, backslash-normalized input starts with `/`, starts with `//`, has a
drive-letter prefix, or contains a `..` segment; otherwise it returns the
remaining segments joined by `/` with empty and `.` segments dropped (which is
`""` for inputs trimming to empty or `.`). -/
theorem c2_normalize_rel_path_spec (input : List Char) :
    ((∃ e, normalize_rel_path input = Except.error e) ↔ claimRejects input) ∧
    (∀ p, normalize_rel_path input = Except.ok p → p = claimNormValue input) := by
  by_cases h0 : pyStrip input = [] ∨ pyStrip input = ['.']
  · have hnorm : normalize_rel_path input = Except.ok [] := by
      unfold normalize_rel_path
      rw [if_pos h0]
    have hni : normInput input = [] ∨ normInput input = ['.'] := by
      unfold normInput
      rcases h0 with h | h <;> rw [h]
      · left; rfl
      · right; rfl
    constructor
    · constructor
      · intro ⟨e, he⟩
        rw [hnorm] at he
        cases he
      · intro hrej
        exfalso
        rcases hrej with h | h | h | h <;>
          rcases hni with hn | hn <;> rw [hn] at h <;> simp_all [splitSlash, hasDriveLetter]
    · intro p hp
      rw [hnorm] at hp
      cases hp
      unfold claimNormValue
      rcases hni with hn | hn <;> rw [hn] <;> rfl
  · unfold normalize_rel_path
    rw [if_neg h0]
    show ((∃ e, (if (pyReplaceBackslash (pyStrip input)).head? = some '/' then _ else _) = _) ↔ _) ∧ _
    by_cases h1 : (normInput input).head? = some '/'
    · rw [if_pos (by exact h1)]
      constructor
      · constructor
        · intro _; exact Or.inl h1
        · intro _; exact ⟨_, rfl⟩
      · intro p hp; cases hp
    · rw [if_neg (by exact h1)]
      have h2 : (normInput input).take 2 ≠ ['/', '/'] := take_two_slash _ h1
      rw [if_neg (by exact h2)]
      by_cases h3 : hasDriveLetter (normInput input) = true
      · rw [if_pos (by exact h3)]
        constructor
        · constructor
          · intro _; exact Or.inr (Or.inr (Or.inl h3))
          · intro _; exact ⟨_, rfl⟩
        · intro p hp; cases hp
      · rw [if_neg (by exact h3)]
        by_cases h4 : ['.', '.'] ∈ splitSlash (normInput input)
        · have h4b : ((splitSlash (normInput input)).filter
              (fun p => p ≠ [] && p ≠ ['.'])).any (fun p => decide (p = ['.', '.'])) = true := by
            rw [List.any_eq_true]
            exact ⟨['.', '.'], (dotdot_mem_filter _).mpr h4, by simp⟩
          rw [if_pos (by exact h4b)]
          constructor
          · constructor
            · intro _; exact Or.inr (Or.inr (Or.inr h4))
            · intro _; exact ⟨_, rfl⟩
          · intro p hp; cases hp
        · have h4b : ¬ (((splitSlash (normInput input)).filter
              (fun p => p ≠ [] && p ≠ ['.'])).any (fun p => decide (p = ['.', '.'])) = true) := by
            rw [List.any_eq_true]
            rintro ⟨x, hx, hx2⟩
            simp at hx2
            subst hx2
            exact h4 ((dotdot_mem_filter _).mp hx)
          rw [if_neg (by exact h4b)]
          have hval : joinSlash ((splitSlash (normInput input)).filter
              (fun p => p ≠ [] && p ≠ ['.'])) = claimNormValue input := rfl
          by_cases h5 : joinSlash ((splitSlash (normInput input)).filter
              (fun p => p ≠ [] && p ≠ ['.'])) = [] ∨
              joinSlash ((splitSlash (normInput input)).filter
              (fun p => p ≠ [] && p ≠ ['.'])) = ['.']
          · rw [if_pos (by exact h5)]
            have hdot : joinSlash ((splitSlash (normInput input)).filter
                (fun p => p ≠ [] && p ≠ ['.'])) ≠ ['.'] := by
              apply joinSlash_ne_dot
              intro p hp
              have := List.of_mem_filter hp
              simp at this
              exact this
            have hnil : joinSlash ((splitSlash (normInput input)).filter
                (fun p => p ≠ [] && p ≠ ['.'])) = [] := by
              rcases h5 with h | h
              · exact h
              · exact absurd h hdot
            constructor
            · constructor
              · intro ⟨e, he⟩; cases he
              · intro hrej
                rcases hrej with h | h | h | h
                · exact (h1 h).elim
                · exact (h2 h).elim
                · exact (h3 h).elim
                · exact (h4 h).elim
            · intro p hp
              cases hp
              rw [← hval, hnil]
          · rw [if_neg (by exact h5)]
            constructor
            · constructor
              · intro ⟨e, he⟩; cases he
              · intro hrej
                rcases hrej with h | h | h | h
                · exact (h1 h).elim
                · exact (h2 h).elim
                · exact (h3 h).elim
                · exact (h4 h).elim
            · intro p hp
              cases hp
              exact hval.symm

/-- Witness for C2 at the concrete input `" a\\b/../c "`: it is rejected
(it contains a `..` segment). -/
theorem c2_normalize_rel_path_spec_witness :
    ((∃ e, normalize_rel_path " a\\b/../c ".data = Except.error e) ↔
        claimRejects " a\\b/../c ".data) ∧
    (∀ p, normalize_rel_path " a\\b/../c ".data = Except.ok p →
        p = claimNormValue " a\\b/../c ".data) :=
  c2_normalize_rel_path_spec " a\\b/../c ".data

/-! ## Decimal digit strings

`natToChars` renders a natural number in decimal (fuel-based so that it
computes by kernel reduction); `natDigits` is the same function in its
naturally recursive form, used for reasoning.  `pyInt` models Python `int()`
on optionally signed decimal strings. -/

def digitChar (d : Nat) : Char := Char.ofNat (48 + d)

def natToCharsAux : Nat → Nat → List Char → List Char
  | 0, _, acc => acc
  | fuel+1, n, acc =>
    if n < 10 then digitChar n :: acc
    else natToCharsAux fuel (n / 10) (digitChar (n % 10) :: acc)

def natToChars (n : Nat) : List Char := natToCharsAux (n + 1) n []

def natDigits (n : Nat) : List Char :=
  if _h : n < 10 then [digitChar n]
  else natDigits (n / 10) ++ [digitChar (n % 10)]
decreasing_by exact Nat.div_lt_self (by omega) (by omega)

theorem natToCharsAux_eq (fuel : Nat) : ∀ (n : Nat) (acc : List Char), n < fuel →
    natToCharsAux fuel n acc = natDigits n ++ acc := by
  induction fuel with
  | zero => intro n acc h; omega
  | succ f ih =>
    intro n acc h
    by_cases h10 : n < 10
    · unfold natToCharsAux
      rw [if_pos h10, natDigits, dif_pos h10]
      rfl
    · have hlt : n / 10 < f := by
        have h1 : n / 10 < n := Nat.div_lt_self (by omega) (by omega)
        omega
      unfold natToCharsAux
      rw [if_neg h10, ih _ _ hlt]
      conv_rhs => rw [natDigits]
      rw [dif_neg h10]
      simp

theorem natToChars_eq_natDigits (n : Nat) : natToChars n = natDigits n := by
  simpa using natToCharsAux_eq (n + 1) n [] (by omega)

theorem digitChar_toNat (d : Nat) (h : d ≤ 9) : (digitChar d).toNat = 48 + d :=
  toNat_ofNat_small _ (by omega)

theorem natDigits_bounds (n : Nat) :
    ∀ c ∈ natDigits n, 48 ≤ c.toNat ∧ c.toNat ≤ 57 := by
  induction n using Nat.strong_induction_on with
  | _ n ih =>
    intro c hc
    by_cases h10 : n < 10
    · rw [natDigits, dif_pos h10] at hc
      simp at hc
      subst hc
      rw [digitChar_toNat n (by omega)]
      omega
    · rw [natDigits, dif_neg h10] at hc
      rcases List.mem_append.mp hc with h | h
      · exact ih (n / 10) (Nat.div_lt_self (by omega) (by omega)) c h
      · simp at h
        subst h
        rw [digitChar_toNat _ (by omega)]
        have := Nat.mod_lt n (show 0 < 10 by omega)
        omega

theorem natDigits_ne_nil (n : Nat) : natDigits n ≠ [] := by
  by_cases h10 : n < 10
  · rw [natDigits, dif_pos h10]; simp
  · rw [natDigits, dif_neg h10]; simp

def isDigitCh (c : Char) : Bool := 48 ≤ c.toNat && c.toNat ≤ 57

def digitsVal (l : List Char) : Nat :=
  l.foldl (fun a c => 10 * a + (c.toNat - 48)) 0

theorem digitsVal_append_singleton (l : List Char) (c : Char) :
    digitsVal (l ++ [c]) = 10 * digitsVal l + (c.toNat - 48) := by
  unfold digitsVal
  rw [List.foldl_append]
  rfl

theorem digitsVal_natDigits (n : Nat) : digitsVal (natDigits n) = n := by
  induction n using Nat.strong_induction_on with
  | _ n ih =>
    by_cases h10 : n < 10
    · rw [natDigits, dif_pos h10]
      unfold digitsVal
      simp [digitChar_toNat n (by omega)]
    · rw [natDigits, dif_neg h10, digitsVal_append_singleton,
        ih (n / 10) (Nat.div_lt_self (by omega) (by omega))]
      rw [digitChar_toNat _ (by have := Nat.mod_lt n (show 0 < 10 by omega); omega)]
      omega

theorem pyIsSpace_false_of_toNat (c : Char) (h : 45 ≤ c.toNat) : pyIsSpace c = false := by
  unfold pyIsSpace
  have e1 : (c = ' ') = False := by
    by_contra hx
    simp at hx
    subst hx
    exact absurd h (by decide)
  have e2 : (c = '\t') = False := by
    by_contra hx
    simp at hx
    subst hx
    exact absurd h (by decide)
  have e3 : (c = '\n') = False := by
    by_contra hx
    simp at hx
    subst hx
    exact absurd h (by decide)
  have e4 : (c = '\r') = False := by
    by_contra hx
    simp at hx
    subst hx
    exact absurd h (by decide)
  have e5 : (c = '\x0b') = False := by
    by_contra hx
    simp at hx
    subst hx
    exact absurd h (by decide)
  have e6 : (c = '\x0c') = False := by
    by_contra hx
    simp at hx
    subst hx
    exact absurd h (by decide)
  simp [e1, e2, e3, e4, e5, e6]

theorem dropWhile_eq_self_of_all (p : Char → Bool) (l : List Char)
    (h : ∀ c ∈ l, p c = false) : l.dropWhile p = l := by
  cases l with
  | nil => rfl
  | cons c r =>
    rw [List.dropWhile_cons_of_neg]
    simp [h c (by simp)]

theorem pyStrip_eq_self (l : List Char) (h : ∀ c ∈ l, pyIsSpace c = false) :
    pyStrip l = l := by
  unfold pyStrip
  rw [dropWhile_eq_self_of_all _ _ h,
    dropWhile_eq_self_of_all _ _ (fun c hc => h c (List.mem_reverse.mp hc)),
    List.reverse_reverse]

/-- Model of Python `int(str)` on optionally signed plain decimal strings
(whitespace-stripped); other inputs raise `ValueError`, modelled as `none`. -/
def pyInt (s : List Char) : Option Int :=
  match pyStrip s with
  | [] => none
  | c :: rest =>
    if c = '-' then
      if rest ≠ [] ∧ rest.all isDigitCh then some (-(digitsVal rest : Int)) else none
    else if c = '+' then
      if rest ≠ [] ∧ rest.all isDigitCh then some ((digitsVal rest : Int)) else none
    else
      if (c :: rest).all isDigitCh then some ((digitsVal (c :: rest) : Int)) else none

theorem pyInt_natDigits (n : Nat) : pyInt (natDigits n) = some (n : Int) := by
  have hb := natDigits_bounds n
  have hstrip : pyStrip (natDigits n) = natDigits n :=
    pyStrip_eq_self _ (fun c hc =>
      pyIsSpace_false_of_toNat c (by have := (hb c hc).1; omega))
  cases hnd : natDigits n with
  | nil => exact absurd hnd (natDigits_ne_nil n)
  | cons c rest =>
    have hc48 : 48 ≤ c.toNat ∧ c.toNat ≤ 57 := hb c (by rw [hnd]; simp)
    have hcm : c ≠ '-' := by
      intro hx; subst hx; exact absurd hc48.1 (by decide)
    have hcp : c ≠ '+' := by
      intro hx; subst hx; exact absurd hc48.1 (by decide)
    have hall : (c :: rest).all isDigitCh = true := by
      rw [← hnd, List.all_eq_true]
      intro x hx
      have hbx := hb x hx
      unfold isDigitCh
      simp only [Bool.and_eq_true, decide_eq_true_eq]
      omega
    unfold pyInt
    rw [hnd] at hstrip
    rw [hstrip]
    simp only [hcm, hcp, if_false, hall, if_true]
    rw [← hnd, digitsVal_natDigits]

/-! ## C8: `/api/media` range handling (`do_GET` in `backend/api/server.py`)

The embedding covers the request from the point where the target file exists
and is a regular video file: `content` is the file bytes and `rangeHeader`
the optional `Range` header value.  `rangeDecision` mirrors the source's
start/end/status computation including the early 416 return; `mediaGet`
assembles status, body and `Content-Range` header. -/

inductive RangeDecision
  | normal (status start endIdx : Nat)
  | unsatisfiable
deriving DecidableEq

/-- The `raw_start`/`raw_end` logic of the source: suffix ranges, the early
416 return when `candidate_start >= file_size`, clamping, and the
`ValueError → keep status 200` fallbacks. -/
def rangeFromStartEnd (fileSize : Nat) (rawStart rawEnd : List Char) : RangeDecision :=
  if rawStart = [] then
    match pyInt rawEnd with
    | none => RangeDecision.normal 200 0 (fileSize - 1)
    | some suffix =>
      if suffix > 0 then
        RangeDecision.normal 206 (max 0 ((fileSize : Int) - suffix)).toNat (fileSize - 1)
      else RangeDecision.normal 200 0 (fileSize - 1)
  else
    match pyInt rawStart with
    | none => RangeDecision.normal 200 0 (fileSize - 1)
    | some cs =>
      match (if rawEnd = [] then some ((fileSize : Int) - 1) else pyInt rawEnd) with
      | none => RangeDecision.normal 200 0 (fileSize - 1)
      | some ce =>
        if cs ≥ (fileSize : Int) then RangeDecision.unsatisfiable
        else
          let cs2 := if cs < 0 then 0 else cs
          let ce2 := if ce ≥ (fileSize : Int) then (fileSize : Int) - 1 else ce
          if 0 ≤ cs2 ∧ cs2 ≤ ce2 then
            RangeDecision.normal 206 cs2.toNat ce2.toNat
          else RangeDecision.normal 200 0 (fileSize - 1)

/-- The comma/dash test and the `spec.split("-", 1)` step of the source. -/
def rangeFromSpec (fileSize : Nat) (spec : List Char) : RangeDecision :=
  if ¬ (',' ∈ spec) ∧ '-' ∈ spec then
    rangeFromStartEnd fileSize
      (spec.takeWhile (fun c => !(c == '-')))
      ((spec.dropWhile (fun c => !(c == '-'))).tail)
  else RangeDecision.normal 200 0 (fileSize - 1)

def rangeDecision (fileSize : Nat) (rangeHeader : Option (List Char)) : RangeDecision :=
  match rangeHeader with
  | none => RangeDecision.normal 200 0 (fileSize - 1)
  | some h =>
    if "bytes=".data.isPrefixOf h ∧ fileSize > 0 then
      rangeFromSpec fileSize (pyStrip (h.drop 6))
    else RangeDecision.normal 200 0 (fileSize - 1)

structure MediaResponse where
  status : Nat
  body : List Nat
  contentRange : Option (List Char)
deriving DecidableEq

def contentRangeOk (a b L : Nat) : List Char :=
  "bytes ".data ++ natToChars a ++ '-' :: natToChars b ++ '/' :: natToChars L

def contentRangeUnsat (L : Nat) : List Char :=
  "bytes */".data ++ natToChars L

def mediaGet (content : List Nat) (rangeHeader : Option (List Char)) : MediaResponse :=
  match rangeDecision content.length rangeHeader with
  | RangeDecision.unsatisfiable => ⟨416, [], some (contentRangeUnsat content.length)⟩
  | RangeDecision.normal status start endIdx =>
    ⟨status,
      if (if content.length ≤ 0 then 0 else endIdx - start + 1) ≤ 0 then []
      else (content.drop start).take (if content.length ≤ 0 then 0 else endIdx - start + 1),
      if status = 206 then some (contentRangeOk start endIdx content.length) else none⟩

theorem mediaGet_eq_of_normal (content : List Nat) (rangeHeader : Option (List Char))
    (status start endIdx : Nat)
    (h : rangeDecision content.length rangeHeader = RangeDecision.normal status start endIdx) :
    mediaGet content rangeHeader =
      ⟨status,
        if (if content.length ≤ 0 then 0 else endIdx - start + 1) ≤ 0 then []
        else (content.drop start).take (if content.length ≤ 0 then 0 else endIdx - start + 1),
        if status = 206 then some (contentRangeOk start endIdx content.length) else none⟩ := by
  unfold mediaGet
  rw [h]

theorem mediaGet_eq_of_unsat (content : List Nat) (rangeHeader : Option (List Char))
    (h : rangeDecision content.length rangeHeader = RangeDecision.unsatisfiable) :
    mediaGet content rangeHeader = ⟨416, [], some (contentRangeUnsat content.length)⟩ := by
  unfold mediaGet
  rw [h]

/-- The `Range: bytes=a-b` header for concrete decimal bounds. -/
def rangeHeaderChars (a b : Nat) : List Char :=
  "bytes=".data ++ natToChars a ++ '-' :: natToChars b

theorem natToChars_ne_nil (n : Nat) : natToChars n ≠ [] := by
  rw [natToChars_eq_natDigits]; exact natDigits_ne_nil n

theorem natToChars_bounds (n : Nat) : ∀ c ∈ natToChars n, 48 ≤ c.toNat ∧ c.toNat ≤ 57 := by
  rw [natToChars_eq_natDigits]; exact natDigits_bounds n

theorem pyInt_natToChars (n : Nat) : pyInt (natToChars n) = some (n : Int) := by
  rw [natToChars_eq_natDigits]; exact pyInt_natDigits n

theorem rangeDecision_bytes_ab (L a b : Nat) (hL : 0 < L) :
    rangeDecision L (some (rangeHeaderChars a b)) =
      (if L ≤ a then RangeDecision.unsatisfiable
       else if a ≤ b then RangeDecision.normal 206 a (min b (L - 1))
       else RangeDecision.normal 200 0 (L - 1)) := by
  have hpre : "bytes=".data.isPrefixOf (rangeHeaderChars a b) = true := by
    unfold rangeHeaderChars
    rw [List.append_assoc]
    exact List.isPrefixOf_iff_prefix.mpr (List.prefix_append _ _)
  have h6 : ("bytes=".data).length = 6 := rfl
  have hdrop : (rangeHeaderChars a b).drop 6 = natToChars a ++ '-' :: natToChars b := by
    rw [rangeHeaderChars, List.append_assoc, ← h6, List.drop_left]
  have hbound : ∀ c ∈ natToChars a ++ '-' :: natToChars b, 45 ≤ c.toNat ∧ c.toNat ≤ 57 := by
    intro c hc
    rcases List.mem_append.mp hc with h | h
    · have := natToChars_bounds a c h; omega
    · rcases List.mem_cons.mp h with h | h
      · subst h; exact ⟨by decide, by decide⟩
      · have := natToChars_bounds b c h; omega
  have hstrip : pyStrip ((rangeHeaderChars a b).drop 6) =
      natToChars a ++ '-' :: natToChars b := by
    rw [hdrop]
    exact pyStrip_eq_self _ (fun c hc => pyIsSpace_false_of_toNat c (hbound c hc).1)
  have hcomma : ¬ (',' ∈ natToChars a ++ '-' :: natToChars b) := by
    intro hc
    have h1 := (hbound _ hc).1
    have h2 : (',').toNat = 44 := by decide
    rw [h2] at h1
    omega
  have hdash : '-' ∈ natToChars a ++ '-' :: natToChars b :=
    List.mem_append.mpr (Or.inr (by simp))
  have pchar : ∀ c : Char, 48 ≤ c.toNat → (!(c == '-')) = true := by
    intro c h
    have hne : ¬ (c = '-') := by
      intro hx; subst hx; exact absurd h (by decide)
    simp [hne]
  have htake : (natToChars a ++ '-' :: natToChars b).takeWhile (fun c => !(c == '-')) =
      natToChars a := by
    rw [List.takeWhile_append_of_pos (fun c hc => pchar c (natToChars_bounds a c hc).1),
      List.takeWhile_cons_of_neg]
    · simp
    · simp
  have hdropw : ((natToChars a ++ '-' :: natToChars b).dropWhile
      (fun c => !(c == '-'))).tail = natToChars b := by
    rw [List.dropWhile_append_of_pos (fun c hc => pchar c (natToChars_bounds a c hc).1),
      List.dropWhile_cons_of_neg]
    · rfl
    · simp
  have hstep1 : rangeDecision L (some (rangeHeaderChars a b)) =
      (if "bytes=".data.isPrefixOf (rangeHeaderChars a b) ∧ L > 0 then
        rangeFromSpec L (pyStrip ((rangeHeaderChars a b).drop 6))
      else RangeDecision.normal 200 0 (L - 1)) := rfl
  rw [hstep1, if_pos ⟨hpre, hL⟩, hstrip]
  unfold rangeFromSpec
  rw [if_pos ⟨hcomma, hdash⟩, htake, hdropw]
  unfold rangeFromStartEnd
  rw [if_neg (natToChars_ne_nil a), pyInt_natToChars a]
  simp only []
  rw [if_neg (natToChars_ne_nil b), pyInt_natToChars b]
  simp only []
  by_cases hLa : L ≤ a
  · have hge : ((a : Int) ≥ (L : Int)) := by exact_mod_cast hLa
    simp only [hge, if_pos hLa]
    simp [hge]
  · have hlt : ¬ ((a : Int) ≥ (L : Int)) := by
      intro hx
      exact hLa (by exact_mod_cast hx)
    simp only [if_neg hLa]
    by_cases hab : a ≤ b
    · rw [if_pos hab]
      have hc0 : ¬ ((a : Int) < 0) := by omega
      by_cases hbe : (b : Int) ≥ (L : Int)
      · have hmin : min b (L - 1) = L - 1 := by
          have : L ≤ b := by exact_mod_cast hbe
          omega
        have hcond : (0 : Int) ≤ (a : Int) ∧ (a : Int) ≤ (L : Int) - 1 := by omega
        simp only [hlt, if_false, hc0, hbe, if_true, hmin]
        simp only [hlt, hc0, hbe, hcond, if_true, if_false]
        simp [hcond]
      · have hmin : min b (L - 1) = b := by
          have : ¬ (L ≤ b) := fun hx => hbe (by exact_mod_cast hx)
          omega
        have hcond : (0 : Int) ≤ (a : Int) ∧ (a : Int) ≤ (b : Int) := by omega
        simp only [hlt, hc0, hbe, hcond, if_true, if_false, hmin]
        simp [hcond]
    · rw [if_neg hab]
      have hc0 : ¬ ((a : Int) < 0) := by omega
      have hbe : ¬ ((b : Int) ≥ (L : Int)) := by omega
      have hcond : ¬ ((0 : Int) ≤ (a : Int) ∧ (a : Int) ≤ (b : Int)) := by omega
      simp only [hlt, hc0, hbe, hcond, if_true, if_false]

/-- C8 exactly as the claim states it: for every existing video file and every
`Range: bytes=a-b` header with `0 ≤ a < L`, the response is 206 with the
sliced body and `Content-Range: bytes a-min(b,L-1)/L`. -/
def c8ClaimAsStated : Prop :=
  ∀ (content : List Nat) (a b : Nat), a < content.length →
    mediaGet content (some (rangeHeaderChars a b)) =
      ⟨206, (content.drop a).take (min b (content.length - 1) - a + 1),
        some (contentRangeOk a (min b (content.length - 1)) content.length)⟩

/-- C8 counterexample: on the 3-byte file `012`, the header `bytes=2-1`
(start 2 < 3, but end 1 < start) produces a 200 full-body response, not the
206 response the claim requires. -/
theorem c8_counterexample : ¬ c8ClaimAsStated := by
  intro h
  exact absurd (h [48, 49, 50] 2 1 (by decide)) (by decide)

/-- C8 amended: on an existing video file of length `L > 0`, a header
`Range: bytes=a-b` with `a < L` and `a ≤ b` yields 206 with body
`a..min(b,L-1)` and `Content-Range: bytes a-min(b,L-1)/L`; a header whose
start `a ≥ L` yields 416 with empty body and `Content-Range: bytes */L`;
no `Range` header yields 200 with the full body. -/
theorem c8_media_range (content : List Nat) (a b : Nat) (hL : 0 < content.length) :
    (a < content.length → a ≤ b →
      mediaGet content (some (rangeHeaderChars a b)) =
        ⟨206, (content.drop a).take (min b (content.length - 1) - a + 1),
          some (contentRangeOk a (min b (content.length - 1)) content.length)⟩) ∧
    (content.length ≤ a →
      mediaGet content (some (rangeHeaderChars a b)) =
        ⟨416, [], some (contentRangeUnsat content.length)⟩) ∧
    mediaGet content none = ⟨200, content, none⟩ := by
  refine ⟨?_, ?_, ?_⟩
  · intro ha hab
    have hdec : rangeDecision content.length (some (rangeHeaderChars a b)) =
        RangeDecision.normal 206 a (min b (content.length - 1)) := by
      rw [rangeDecision_bytes_ab _ _ _ hL, if_neg (by omega), if_pos hab]
    rw [mediaGet_eq_of_normal _ _ _ _ _ hdec]
    rw [if_neg (show ¬ (content.length ≤ 0) by omega)]
    rw [if_neg (show ¬ (min b (content.length - 1) - a + 1 ≤ 0) by omega)]
    rw [if_pos rfl]
  · intro ha
    have hdec : rangeDecision content.length (some (rangeHeaderChars a b)) =
        RangeDecision.unsatisfiable := by
      rw [rangeDecision_bytes_ab _ _ _ hL, if_pos ha]
    exact mediaGet_eq_of_unsat _ _ hdec
  · have hdec : rangeDecision content.length none =
        RangeDecision.normal 200 0 (content.length - 1) := rfl
    rw [mediaGet_eq_of_normal _ _ _ _ _ hdec]
    rw [if_neg (show ¬ (content.length ≤ 0) by omega)]
    rw [if_neg (show ¬ (content.length - 1 - 0 + 1 ≤ 0) by omega)]
    rw [if_neg (show ¬ ((200 : Nat) = 206) by omega)]
    have hlen : content.length - 1 - 0 + 1 = content.length := by omega
    rw [hlen, List.drop_zero, List.take_length]

/-- Witness for C8 on the 10-byte file `0123456789`: `bytes=2-5` gives 206
with body `2345` and `Content-Range: bytes 2-5/10`, `bytes=2-5` with the
416 clause inapplicable, and the other clauses at their concrete inputs. -/
theorem c8_media_range_witness :
    ((2 : Nat) < ([48, 49, 50, 51, 52, 53, 54, 55, 56, 57] : List Nat).length → 2 ≤ 5 →
      mediaGet [48, 49, 50, 51, 52, 53, 54, 55, 56, 57] (some (rangeHeaderChars 2 5)) =
        ⟨206, (([48, 49, 50, 51, 52, 53, 54, 55, 56, 57] : List Nat).drop 2).take
            (min 5 (([48, 49, 50, 51, 52, 53, 54, 55, 56, 57] : List Nat).length - 1) - 2 + 1),
          some (contentRangeOk 2
            (min 5 (([48, 49, 50, 51, 52, 53, 54, 55, 56, 57] : List Nat).length - 1))
            ([48, 49, 50, 51, 52, 53, 54, 55, 56, 57] : List Nat).length)⟩) ∧
    (([48, 49, 50, 51, 52, 53, 54, 55, 56, 57] : List Nat).length ≤ 2 →
      mediaGet [48, 49, 50, 51, 52, 53, 54, 55, 56, 57] (some (rangeHeaderChars 2 5)) =
        ⟨416, [], some (contentRangeUnsat
          ([48, 49, 50, 51, 52, 53, 54, 55, 56, 57] : List Nat).length)⟩) ∧
    mediaGet [48, 49, 50, 51, 52, 53, 54, 55, 56, 57] none =
      ⟨200, [48, 49, 50, 51, 52, 53, 54, 55, 56, 57], none⟩ :=
  c8_media_range [48, 49, 50, 51, 52, 53, 54, 55, 56, 57] 2 5 (by decide)

/-! ## Canonical JSON and confirm-token payloads (`backend/security/fileops.py`)

`_canonical_json` serializes with sorted keys, `,`/`:` separators and
`ensure_ascii=False`; the escape table below is the one `json.dumps` uses for
such output: `"` and `\` and the control shortcuts, with remaining control
characters as `\u00xx`.  Braces are written via `Char.ofNat` (123/125). -/

def lbrace : Char := Char.ofNat 123
def rbrace : Char := Char.ofNat 125

def hexDigitCh (n : Nat) : Char :=
  if n < 10 then Char.ofNat (48 + n) else Char.ofNat (87 + n)

def escapeChar (c : Char) : List Char :=
  if c = '"' then ['\\', '"']
  else if c = '\\' then ['\\', '\\']
  else if c = '\n' then ['\\', 'n']
  else if c = '\r' then ['\\', 'r']
  else if c = '\t' then ['\\', 't']
  else if c = '\x08' then ['\\', 'b']
  else if c = '\x0c' then ['\\', 'f']
  else if c.toNat < 32 then
    ['\\', 'u', '0', '0', hexDigitCh (c.toNat / 16), hexDigitCh (c.toNat % 16)]
  else [c]

def jsonEscape (s : List Char) : List Char := (s.map escapeChar).flatten

def jsonStr (s : List Char) : List Char := '"' :: (jsonEscape s ++ ['"'])

def jsonInt (i : Int) : List Char :=
  if i < 0 then '-' :: natToChars i.natAbs else natToChars i.toNat

def jsonOptInt : Option Int → List Char
  | none => "null".data
  | some i => jsonInt i

def jsonOptStr : Option (List Char) → List Char
  | none => "null".data
  | some s => jsonStr s

def jsonBool : Bool → List Char
  | true => "true".data
  | false => "false".data

/-- The token payloads built by archive/purge/restore/move.  `create_parents`
is present (as `some`) exactly for `move` payloads. -/
structure TokenPayload where
  op : List Char
  src_rel_path : List Char
  dst_rel_path : Option (List Char)
  is_dir : Bool
  size_bytes : Option Int
  mtime_ms : Option Int
  create_parents : Option Bool
deriving DecidableEq

/-- `_canonical_json` on a token payload: keys serialized in sorted order
(`create_parents`, `dst_rel_path`, `is_dir`, `mtime_ms`, `op`, `size_bytes`,
`src_rel_path`), no spaces. -/
def canonicalJsonPayload (p : TokenPayload) : List Char :=
  lbrace ::
    ((match p.create_parents with
      | some b => jsonStr "create_parents".data ++ ':' :: (jsonBool b ++ [','])
      | none => []) ++
     (jsonStr "dst_rel_path".data ++ ':' :: (jsonOptStr p.dst_rel_path ++ [','])) ++
     (jsonStr "is_dir".data ++ ':' :: (jsonBool p.is_dir ++ [','])) ++
     (jsonStr "mtime_ms".data ++ ':' :: (jsonOptInt p.mtime_ms ++ [','])) ++
     (jsonStr "op".data ++ ':' :: (jsonStr p.op ++ [','])) ++
     (jsonStr "size_bytes".data ++ ':' :: (jsonOptInt p.size_bytes ++ [','])) ++
     (jsonStr "src_rel_path".data ++ ':' :: jsonStr p.src_rel_path) ++
     [rbrace])

/-- The `trash_empty` token payload (keys `count`, `entries_sha1`, `op`,
`trash_mtime_ms`, sorted). -/
structure TrashEmptyPayload where
  count : Nat
  entries_sha1 : List Char
  trash_mtime_ms : Option Int
deriving DecidableEq

def canonicalJsonTrashEmpty (p : TrashEmptyPayload) : List Char :=
  lbrace ::
    ((jsonStr "count".data ++ ':' :: (natToChars p.count ++ [','])) ++
     (jsonStr "entries_sha1".data ++ ':' :: (jsonStr p.entries_sha1 ++ [','])) ++
     (jsonStr "op".data ++ ':' :: (jsonStr "trash_empty".data ++ [','])) ++
     (jsonStr "trash_mtime_ms".data ++ ':' :: jsonOptInt p.trash_mtime_ms) ++
     [rbrace])

/-! ## C5 parser -/

theorem ofNat_toNat_char (c : Char) (h : c.toNat < 55296) : Char.ofNat c.toNat = c := by
  have hv : c.toNat.isValidChar := Or.inl h
  apply Char.ext
  unfold Char.ofNat
  rw [dif_pos hv]
  rfl

def hexVal (c : Char) : Nat := if c.toNat ≤ 57 then c.toNat - 48 else c.toNat - 87

theorem hexVal_hexDigitCh (m : Nat) (h : m < 16) : hexVal (hexDigitCh m) = m := by
  unfold hexVal hexDigitCh
  by_cases h10 : m < 10
  · rw [if_pos h10, toNat_ofNat_small _ (by omega), if_pos (by omega)]
    omega
  · rw [if_neg h10, toNat_ofNat_small _ (by omega), if_neg (by omega)]
    omega

def scanStr : List Char → Option (List Char × List Char)
  | [] => none
  | c :: r =>
    if c = '"' then some ([], r)
    else if c = '\\' then
      match r with
      | [] => none
      | 'u' :: _ :: _ :: h1 :: h2 :: r3 =>
        (scanStr r3).map fun pr => (Char.ofNat (16 * hexVal h1 + hexVal h2) :: pr.1, pr.2)
      | e :: r2 =>
        (scanStr r2).map fun pr =>
          ((if e = 'n' then '\n' else if e = 'r' then '\r' else if e = 't' then '\t'
            else if e = 'b' then '\x08' else if e = 'f' then '\x0c' else e) :: pr.1, pr.2)
    else (scanStr r).map fun pr => (c :: pr.1, pr.2)
termination_by s => s.length
decreasing_by all_goals simp_arith

theorem scanStr_round (s r : List Char) :
    scanStr (jsonEscape s ++ '"' :: r) = some (s, r) := by
  induction s with
  | nil =>
    show scanStr ('"' :: r) = some ([], r)
    conv_lhs => unfold scanStr
    simp
  | cons c cs ih =>
    rw [show jsonEscape (c :: cs) = escapeChar c ++ jsonEscape cs by simp [jsonEscape],
      List.append_assoc]
    unfold escapeChar
    repeat' split
    · rename_i h; subst h
      conv_lhs => unfold scanStr
      simp [ih]
    · rename_i h; subst h
      conv_lhs => unfold scanStr
      simp [ih]
    · rename_i h; subst h
      conv_lhs => unfold scanStr
      simp [ih]
    · rename_i h; subst h
      conv_lhs => unfold scanStr
      simp [ih]
    · rename_i h; subst h
      conv_lhs => unfold scanStr
      simp [ih]
    · rename_i h; subst h
      conv_lhs => unfold scanStr
      simp [ih]
    · rename_i h; subst h
      conv_lhs => unfold scanStr
      simp [ih]
    · rename_i h
      have e1 : hexVal (hexDigitCh (c.toNat / 16)) = c.toNat / 16 :=
        hexVal_hexDigitCh _ (by omega)
      have e2 : hexVal (hexDigitCh (c.toNat % 16)) = c.toNat % 16 :=
        hexVal_hexDigitCh _ (by have := Nat.mod_lt c.toNat (show 0 < 16 by omega); omega)
      have e3 : Char.ofNat (16 * (c.toNat / 16) + c.toNat % 16) = c := by
        rw [Nat.div_add_mod c.toNat 16]
        exact ofNat_toNat_char c (by omega)
      conv_lhs => unfold scanStr
      simp [ih, e1, e2, e3]
    · rename_i h1 h2 h3 h4 h5 h6 h7 h8
      conv_lhs => unfold scanStr
      simp [ih, h1, h2]

def parseLit (lit s : List Char) : Option (List Char) :=
  if lit.isPrefixOf s then some (s.drop lit.length) else none

theorem parseLit_pre (lit r : List Char) : parseLit lit (lit ++ r) = some r := by
  unfold parseLit
  rw [if_pos (List.isPrefixOf_iff_prefix.mpr (List.prefix_append lit r))]
  rw [List.drop_left]

theorem parseLit_cons_self (c : Char) (r : List Char) : parseLit [c] (c :: r) = some r := by
  simp [parseLit, List.isPrefixOf]

def parseBool (s : List Char) : Option (Bool × List Char) :=
  match s with
  | 't' :: r => some (true, r.drop 3)
  | 'f' :: r => some (false, r.drop 4)
  | _ => none

theorem parseBool_pre (b : Bool) (r : List Char) : parseBool (jsonBool b ++ r) = some (b, r) := by
  cases b <;> rfl

def parseJsonStr (s : List Char) : Option (List Char × List Char) :=
  match s with
  | '"' :: r => scanStr r
  | _ => none

theorem parseJsonStr_pre (a r : List Char) : parseJsonStr (jsonStr a ++ r) = some (a, r) := by
  show scanStr ((jsonEscape a ++ ['"']) ++ r) = some (a, r)
  rw [List.append_assoc, List.singleton_append]
  exact scanStr_round a r

def parseOptStr (s : List Char) : Option (Option (List Char) × List Char) :=
  match s with
  | 'n' :: r => some (none, r.drop 3)
  | '"' :: r => (scanStr r).map fun pr => (some pr.1, pr.2)
  | _ => none

theorem parseOptStr_pre (o : Option (List Char)) (r : List Char) :
    parseOptStr (jsonOptStr o ++ r) = some (o, r) := by
  cases o with
  | none => rfl
  | some a =>
    show (scanStr ((jsonEscape a ++ ['"']) ++ r)).map _ = _
    rw [List.append_assoc, List.singleton_append, scanStr_round]
    rfl

theorem takeWhile_append_all (p : Char → Bool) (l1 l2 : List Char)
    (h : ∀ c ∈ l1, p c = true) : (l1 ++ l2).takeWhile p = l1 ++ l2.takeWhile p := by
  induction l1 with
  | nil => simp
  | cons c cs ih =>
    rw [List.cons_append, List.takeWhile_cons_of_pos (h c (by simp)), List.cons_append,
      ih (fun x hx => h x (by simp [hx]))]

theorem dropWhile_append_all (p : Char → Bool) (l1 l2 : List Char)
    (h : ∀ c ∈ l1, p c = true) : (l1 ++ l2).dropWhile p = l2.dropWhile p := by
  induction l1 with
  | nil => simp
  | cons c cs ih =>
    rw [List.cons_append, List.dropWhile_cons_of_pos (h c (by simp)),
      ih (fun x hx => h x (by simp [hx]))]

def parseJsonInt (s : List Char) : Option (Int × List Char) :=
  match s with
  | '-' :: r =>
    if (r.takeWhile isDigitCh) = [] then none
    else some (-(digitsVal (r.takeWhile isDigitCh) : Int), r.dropWhile isDigitCh)
  | r =>
    if (r.takeWhile isDigitCh) = [] then none
    else some ((digitsVal (r.takeWhile isDigitCh) : Int), r.dropWhile isDigitCh)

theorem digits_takeWhile (m : Nat) (r : List Char) :
    (natDigits m ++ ',' :: r).takeWhile isDigitCh = natDigits m := by
  rw [takeWhile_append_all _ _ _ (fun c hc => by
      have := natDigits_bounds m c hc
      unfold isDigitCh
      simp
      omega)]
  rw [List.takeWhile_cons_of_neg (by decide)]
  simp

theorem digits_dropWhile (m : Nat) (r : List Char) :
    (natDigits m ++ ',' :: r).dropWhile isDigitCh = ',' :: r := by
  rw [dropWhile_append_all _ _ _ (fun c hc => by
      have := natDigits_bounds m c hc
      unfold isDigitCh
      simp
      omega)]
  rw [List.dropWhile_cons_of_neg (by decide)]

theorem parseJsonInt_nonneg (m : Nat) (r : List Char) :
    parseJsonInt (natDigits m ++ ',' :: r) = some ((m : Int), ',' :: r) := by
  have hb := natDigits_bounds m
  cases hnd : natDigits m with
  | nil => exact absurd hnd (natDigits_ne_nil m)
  | cons c rest =>
    have hc : 48 ≤ c.toNat ∧ c.toNat ≤ 57 := hb c (by rw [hnd]; simp)
    have hcm : ¬ c = '-' := by
      intro hx; subst hx; exact absurd hc.1 (by decide)
    have ht := digits_takeWhile m r
    have hd := digits_dropWhile m r
    rw [hnd] at ht hd
    rw [List.cons_append] at ht hd
    rw [List.cons_append]
    unfold parseJsonInt
    split
    · rename_i heq
      injection heq with hx
      exact absurd hx hcm
    · rw [ht, hd, if_neg (by rw [← hnd]; exact natDigits_ne_nil m)]
      rw [← hnd, digitsVal_natDigits]

def parseOptInt (s : List Char) : Option (Option Int × List Char) :=
  match s with
  | 'n' :: r => some (none, r.drop 3)
  | r => (parseJsonInt r).map fun pr => (some pr.1, pr.2)

theorem parseOptInt_digits (m : Nat) (r : List Char) :
    parseOptInt (natDigits m ++ ',' :: r) = some (some (m : Int), ',' :: r) := by
  have hb := natDigits_bounds m
  have hpj := parseJsonInt_nonneg m r
  cases hnd : natDigits m with
  | nil => exact absurd hnd (natDigits_ne_nil m)
  | cons c rest =>
    have hc : 48 ≤ c.toNat ∧ c.toNat ≤ 57 := hb c (by rw [hnd]; simp)
    have hcn : ¬ c = 'n' := by intro hx; subst hx; exact absurd hc.2 (by decide)
    rw [hnd] at hpj
    rw [List.cons_append] at hpj ⊢
    unfold parseOptInt
    split
    · rename_i heq
      injection heq with hx
      exact absurd hx hcn
    · rw [hpj]
      rfl

theorem parseOptInt_pre (o : Option Int) (r : List Char) :
    parseOptInt (jsonOptInt o ++ ',' :: r) = some (o, ',' :: r) := by
  cases o with
  | none => rfl
  | some i =>
    show parseOptInt (jsonInt i ++ ',' :: r) = _
    unfold jsonInt
    by_cases hi : i < 0
    · rw [if_pos hi, natToChars_eq_natDigits, List.cons_append]
      show (parseJsonInt ('-' :: (natDigits i.natAbs ++ ',' :: r))).map
        (fun pr => (some pr.1, pr.2)) = _
      rw [show parseJsonInt ('-' :: (natDigits i.natAbs ++ ',' :: r)) =
          (if ((natDigits i.natAbs ++ ',' :: r).takeWhile isDigitCh) = [] then none
           else some (-(digitsVal ((natDigits i.natAbs ++ ',' :: r).takeWhile isDigitCh) : Int),
             (natDigits i.natAbs ++ ',' :: r).dropWhile isDigitCh)) from rfl]
      rw [digits_takeWhile, digits_dropWhile, if_neg (natDigits_ne_nil _), digitsVal_natDigits]
      have hni : -((i.natAbs : Int)) = i := by omega
      rw [hni]
      rfl
    · rw [if_neg hi, natToChars_eq_natDigits, parseOptInt_digits,
        Int.toNat_of_nonneg (by omega)]

theorem parseLit_cp_dst (r : List Char) :
    parseLit (jsonStr "create_parents".data) (jsonStr "dst_rel_path".data ++ r) = none := rfl

def parseKV (key s : List Char) : Option (List Char) :=
  (parseLit key s).bind fun s1 => parseLit [':'] s1

def fieldComma {α : Type} (vr : α × List Char) : Option (α × List Char) :=
  (parseLit [','] vr.2).map fun s2 => (vr.1, s2)

def parseFieldBool (key s : List Char) : Option (Bool × List Char) :=
  (parseKV key s).bind fun s1 => (parseBool s1).bind fieldComma

def parseFieldOptStr (key s : List Char) : Option (Option (List Char) × List Char) :=
  (parseKV key s).bind fun s1 => (parseOptStr s1).bind fieldComma

def parseFieldOptInt (key s : List Char) : Option (Option Int × List Char) :=
  (parseKV key s).bind fun s1 => (parseOptInt s1).bind fieldComma

def parseFieldStr (key s : List Char) : Option (List Char × List Char) :=
  (parseKV key s).bind fun s1 => (parseJsonStr s1).bind fieldComma

def parseFieldStrEnd (key s : List Char) : Option (List Char × List Char) :=
  (parseKV key s).bind fun s1 => parseJsonStr s1

def parseCP (s0 : List Char) : Option (Option Bool × List Char) :=
  match parseLit (jsonStr "create_parents".data) s0 with
  | some s1 =>
    (parseLit [':'] s1).bind fun s1b =>
    (parseBool s1b).bind fun br =>
    (parseLit [','] br.2).map fun s2 => ((some br.1 : Option Bool), s2)
  | none => some ((none : Option Bool), s0)

def parsePayload (s : List Char) : Option TokenPayload :=
  match s with
  | [] => none
  | _ :: s0 =>
    (parseCP s0).bind fun cpr =>
    (parseFieldOptStr (jsonStr "dst_rel_path".data) cpr.2).bind fun dstr =>
    (parseFieldBool (jsonStr "is_dir".data) dstr.2).bind fun idr =>
    (parseFieldOptInt (jsonStr "mtime_ms".data) idr.2).bind fun mtr =>
    (parseFieldStr (jsonStr "op".data) mtr.2).bind fun opr =>
    (parseFieldOptInt (jsonStr "size_bytes".data) opr.2).bind fun sbr =>
    (parseFieldStrEnd (jsonStr "src_rel_path".data) sbr.2).map fun srcr =>
    ⟨opr.1, srcr.1, dstr.1, idr.1, sbr.1, mtr.1, cpr.1⟩

theorem parseKV_pre (key r : List Char) : parseKV key (key ++ ':' :: r) = some r := by
  unfold parseKV
  rw [parseLit_pre]
  show parseLit [':'] (':' :: r) = some r
  exact parseLit_cons_self ':' r

theorem parseFieldBool_pre (key : List Char) (b : Bool) (r : List Char) :
    parseFieldBool key (key ++ ':' :: (jsonBool b ++ ',' :: r)) = some (b, r) := by
  unfold parseFieldBool
  rw [parseKV_pre]
  show (parseBool (jsonBool b ++ ',' :: r)).bind fieldComma = some (b, r)
  rw [parseBool_pre]
  show fieldComma (b, ',' :: r) = some (b, r)
  unfold fieldComma
  rw [parseLit_cons_self]
  rfl

theorem parseFieldOptStr_pre (key : List Char) (o : Option (List Char)) (r : List Char) :
    parseFieldOptStr key (key ++ ':' :: (jsonOptStr o ++ ',' :: r)) = some (o, r) := by
  unfold parseFieldOptStr
  rw [parseKV_pre]
  show (parseOptStr (jsonOptStr o ++ ',' :: r)).bind fieldComma = some (o, r)
  rw [parseOptStr_pre]
  show fieldComma (o, ',' :: r) = some (o, r)
  unfold fieldComma
  rw [parseLit_cons_self]
  rfl

theorem parseFieldOptInt_pre (key : List Char) (o : Option Int) (r : List Char) :
    parseFieldOptInt key (key ++ ':' :: (jsonOptInt o ++ ',' :: r)) = some (o, r) := by
  unfold parseFieldOptInt
  rw [parseKV_pre]
  show (parseOptInt (jsonOptInt o ++ ',' :: r)).bind fieldComma = some (o, r)
  rw [parseOptInt_pre]
  show fieldComma (o, ',' :: r) = some (o, r)
  unfold fieldComma
  rw [parseLit_cons_self]
  rfl

theorem parseFieldStr_pre (key a r : List Char) :
    parseFieldStr key (key ++ ':' :: (jsonStr a ++ ',' :: r)) = some (a, r) := by
  unfold parseFieldStr
  rw [parseKV_pre]
  show (parseJsonStr (jsonStr a ++ ',' :: r)).bind fieldComma = some (a, r)
  rw [parseJsonStr_pre]
  show fieldComma (a, ',' :: r) = some (a, r)
  unfold fieldComma
  rw [parseLit_cons_self]
  rfl

theorem parseFieldStrEnd_pre (key a r : List Char) :
    parseFieldStrEnd key (key ++ ':' :: (jsonStr a ++ r)) = some (a, r) := by
  unfold parseFieldStrEnd
  rw [parseKV_pre]
  exact parseJsonStr_pre a r

theorem parseCP_someH (s0 s1 : List Char) (b : Bool) (r : List Char)
    (h : parseLit (jsonStr "create_parents".data) s0 = some s1)
    (h2 : s1 = ':' :: (jsonBool b ++ ',' :: r)) :
    parseCP s0 = some (some b, r) := by
  simp only [parseCP]
  rw [h, h2]
  simp only [Option.some_bind, parseLit_cons_self, parseBool_pre]
  rfl

theorem parseCP_noneH (s0 : List Char)
    (h : parseLit (jsonStr "create_parents".data) s0 = none) :
    parseCP s0 = some (none, s0) := by
  simp only [parseCP]
  rw [h]

theorem parsePayload_round (p : TokenPayload) :
    parsePayload (canonicalJsonPayload p) = some p := by
  obtain ⟨op, src, dst, isd, sb, mt, cp⟩ := p
  cases cp with
  | none =>
    simp only [canonicalJsonPayload, parsePayload, List.nil_append, List.append_assoc,
      List.cons_append, List.singleton_append]
    rw [parseCP_noneH _ (parseLit_cp_dst _)]
    simp only [Option.some_bind, parseFieldOptStr_pre, parseFieldBool_pre, parseFieldOptInt_pre,
      parseFieldStr_pre, parseFieldStrEnd_pre]
    rfl
  | some b =>
    simp only [canonicalJsonPayload, parsePayload, List.nil_append, List.append_assoc,
      List.cons_append, List.singleton_append]
    rw [parseCP_someH _ _ _ _ (parseLit_pre _ _) rfl]
    simp only [Option.some_bind, parseFieldOptStr_pre, parseFieldBool_pre, parseFieldOptInt_pre,
      parseFieldStr_pre, parseFieldStrEnd_pre]
    rfl

/-! ## The file-mutation service (`FileOpsService` in `backend/security/fileops.py`)

The filesystem is a snapshot (`Fs`) answering the pre-mutation queries; the
outcomes of sandbox resolutions and of each fallible mutation step are an
explicit environment (`FsOracle`), and every performed mutation is recorded
as an `FsEff`.  The HMAC and sha1 primitives are opaque function
parameters.  `OperationLogStore.record` (which adds a fresh id and
timestamp) is modelled by appending a `LogEntry` without those two
request-independent fields. -/

structure FileOpsErr where
  code : String
  http_status : Nat
deriving DecidableEq

inductive OpResult
  | preview (token : List Char)
  | executed
  | opError (e : FileOpsErr)
  | uncaughtSandbox
deriving DecidableEq

inductive FsEff
  | mkdir (p : List Char)
  | rename (src dst : List Char)
  | shutilMove (src dst : List Char)
  | writeText (p : List Char)
  | unlink (p : List Char)
  | rmtree (p : List Char)
  | rmdir (p : List Char)
  | safeRemove (p : List Char)
deriving DecidableEq

structure LogEntry where
  op : String
  src_rel_path : List Char
  dst_rel_path : Option (List Char)
  is_dir : Bool
  success : Bool
  error : Option String
deriving DecidableEq

structure OpOutcome where
  result : OpResult
  effs : List FsEff
  log : List LogEntry
deriving DecidableEq

structure ReqOutcome where
  result : OpResult
  gcEffs : List FsEff
  gcLog : List LogEntry
  effs : List FsEff
  log : List LogEntry
deriving DecidableEq

/-- A JSON request field as the Python code sees it: absent, present but not
a string, or a string. -/
inductive ReqStr
  | absent
  | nonString
  | str (s : List Char)
deriving DecidableEq

structure Request where
  path : ReqStr
  src : ReqStr
  dst : ReqStr
  create_parents : Bool
  confirm : Bool
  confirm_token : ReqStr
deriving DecidableEq

structure FileInfo where
  is_dir : Bool
  size_bytes : Option Int
  mtime_ms : Option Int
deriving DecidableEq

inductive MetaResult
  | missing
  | readFail
  | invalid
  | okMeta (src_rel_path : ReqStr) (payload_name : ReqStr)
deriving DecidableEq

inductive ListTrashRes
  | okList (names : List (List Char))
  | notFound
  | osError
deriving DecidableEq

structure Fs where
  stat : List Char → Option FileInfo
  trashMeta : List Char → MetaResult
  listTrash : ListTrashRes

inductive SafeRemoveRes
  | removed
  | notFound
  | raised
deriving DecidableEq

structure FsOracle where
  sandboxAbs : List Char → Bool
  sandboxAbsMissing : List Char → Bool
  mkdirOk : List Char → Bool
  sandboxAbsRecheck : Bool
  dstExistsRecheck : Bool
  renameOk : Bool
  shutilMoveOk : Bool
  writeMetaOk : Bool
  rollbackEntrySeen : Bool
  rollbackRmtreeOk : Bool
  rmtreeOk : Bool
  unlinkOk : Bool
  metaUnlinkOk : Bool
  entryRmdirOk : Bool
  safeRemove : List Char → SafeRemoveRes
  excMsg : String

/-- `_file_info`: `stat` failure surfaces as `STAT_FAILED` (404); directories
carry no size. -/
def fileInfoOf (fs : Fs) (p : List Char) : Except FileOpsErr FileInfo :=
  match fs.stat p with
  | none => Except.error ⟨"STAT_FAILED", 404⟩
  | some st =>
    Except.ok ⟨st.is_dir, if st.is_dir then none else st.size_bytes, st.mtime_ms⟩

def fsExists (fs : Fs) (p : List Char) : Bool := (fs.stat p).isSome

def fsIsDir (fs : Fs) (p : List Char) : Bool :=
  match fs.stat p with
  | some st => st.is_dir
  | none => false

/-- `_split_parent` (`str.rpartition("/")`). -/
def splitParentRel (p : List Char) : List Char × List Char :=
  let revTail := p.reverse.takeWhile (fun c => !(c == '/'))
  match p.reverse.dropWhile (fun c => !(c == '/')) with
  | [] => ([], p)
  | _ :: restHead => (restHead.reverse, revTail.reverse)

/-- `_is_subpath` on MediaRoot-relative paths (`commonpath` prefix check). -/
def isSubpathRel (parent child : List Char) : Bool :=
  parent = child || (parent ++ ['/']).isPrefixOf child

/-- Token validation shared by every confirmed operation. -/
def checkToken (tok : ReqStr) (expected : List Char) : Option FileOpsErr :=
  match tok with
  | ReqStr.absent => some ⟨"CONFIRM_TOKEN_REQUIRED", 400⟩
  | ReqStr.nonString => some ⟨"CONFIRM_TOKEN_REQUIRED", 400⟩
  | ReqStr.str t =>
    if t = [] then some ⟨"CONFIRM_TOKEN_REQUIRED", 400⟩
    else if t ≠ expected then some ⟨"STALE_CONFIRM_TOKEN", 409⟩
    else none

/-! ### Retention GC (`_maybe_cleanup_trash` / `_cleanup_trash`) -/

structure TrashEntryView where
  name : List Char
  statOk : Bool
  mtimeMs : Option Int
  isDirLike : Bool
  metaArchivedAt : Option Int
  metaDst : Option (List Char)
  removeOk : Bool
deriving DecidableEq

def TRASH_RETENTION_MS : Int := 10 * 24 * 60 * 60 * 1000

def gcEntry (nowMs : Int) (e : TrashEntryView) : List FsEff × List LogEntry :=
  if ¬ e.statOk then ([], [])
  else
    let emt : Int :=
      match e.mtimeMs with
      | some v => if v = 0 then nowMs else v
      | none => nowMs
    let archived : Int :=
      if e.isDirLike then
        match e.metaArchivedAt with
        | some v => if v = 0 then emt else v
        | none => emt
      else emt
    if nowMs - archived ≤ TRASH_RETENTION_MS then ([], [])
    else
      let entryRel := "_trash/".data ++ e.name
      if e.removeOk then
        let logSrc :=
          if e.isDirLike then
            match e.metaDst with
            | some d => if d = [] then entryRel else d
            | none => entryRel
          else entryRel
        ([if e.isDirLike then FsEff.rmtree entryRel else FsEff.unlink entryRel],
         [⟨"purge", logSrc, none, e.isDirLike, true, none⟩])
      else
        ([], [⟨"purge", entryRel, none, e.isDirLike, false, some "removal failure"⟩])

structure GcCtx where
  runs : Bool
  nowMs : Int
  entries : List TrashEntryView

def gcRun (gc : GcCtx) : List FsEff × List LogEntry :=
  if gc.runs then
    ((gc.entries.map (fun e => (gcEntry gc.nowMs e).1)).flatten,
     (gc.entries.map (fun e => (gcEntry gc.nowMs e).2)).flatten)
  else ([], [])

/-! ### The five operations

Each operation is split at the source's `if not confirm` line into a *stage*
(every check and computation that precedes reading `confirm`; none of it
depends on `confirm` or `confirm_token`) and the shared gate `runStaged`,
which is the literal preview / `CONFIRM_TOKEN_REQUIRED` / `STALE_CONFIRM_TOKEN`
block every operation repeats.  A stage result is an early `FileOpsError`
(with the effects performed so far), an uncaught `SandboxViolation` from a
bare `normalize_rel_path` call, or a gate carrying the expected token, the
effects performed so far, and the outcome of the confirmed execution path. -/

inductive StageRes
  | early (e : FileOpsErr) (effs : List FsEff)
  | uncaught
  | gate (expected : List Char) (effs0 : List FsEff) (exec : OpOutcome)

def runStaged (req : Request) : StageRes → OpOutcome
  | StageRes.early e effs => ⟨OpResult.opError e, effs, []⟩
  | StageRes.uncaught => ⟨OpResult.uncaughtSandbox, [], []⟩
  | StageRes.gate expected effs0 exec =>
    if ¬ req.confirm then ⟨OpResult.preview expected, effs0, []⟩
    else
      match checkToken req.confirm_token expected with
      | some e => ⟨OpResult.opError e, effs0, []⟩
      | none => exec

/-- `_ensure_trash_dir`: returns the effects performed (a `mkdir` when the
trash directory was created) alongside the verdict. -/
def ensureTrashDir (fs : Fs) (o : FsOracle) : List FsEff × Option FileOpsErr :=
  if fsExists fs "_trash".data then
    if ¬ o.sandboxAbs "_trash".data then ([], some ⟨"TRASH_SANDBOX_VIOLATION", 400⟩)
    else if ¬ fsIsDir fs "_trash".data then ([], some ⟨"TRASH_NOT_DIR", 409⟩)
    else ([], none)
  else
    if ¬ o.mkdirOk "_trash".data then ([], some ⟨"TRASH_CREATE_FAILED", 500⟩)
    else if ¬ o.sandboxAbs "_trash".data then
      ([FsEff.mkdir "_trash".data], some ⟨"TRASH_SANDBOX_VIOLATION", 400⟩)
    else ([FsEff.mkdir "_trash".data], none)

/-- The `try` block of a confirmed move; every exception there (including the
re-raised `FileOpsError`s) is caught by `except Exception`, logged as a failed
move, and surfaced as `MOVE_FAILED` (500). -/
def moveExec (o : FsOracle) (src dst dstParent : List Char)
    (srcInfo : FileInfo) (createParents : Bool) : OpOutcome :=
  let failLog : LogEntry := ⟨"move", src, some dst, srcInfo.is_dir, false, some o.excMsg⟩
  let okLog : LogEntry := ⟨"move", src, some dst, srcInfo.is_dir, true, none⟩
  let preEffs : List FsEff :=
    if createParents ∧ dstParent ≠ [] then [FsEff.mkdir dstParent] else []
  if createParents ∧ dstParent ≠ [] ∧ ¬ o.mkdirOk dstParent then
    ⟨OpResult.opError ⟨"MOVE_FAILED", 500⟩, [], [failLog]⟩
  else if dstParent ≠ [] ∧ ¬ o.sandboxAbsRecheck then
    ⟨OpResult.opError ⟨"MOVE_FAILED", 500⟩, preEffs, [failLog]⟩
  else if o.dstExistsRecheck then
    ⟨OpResult.opError ⟨"MOVE_FAILED", 500⟩, preEffs, [failLog]⟩
  else if o.renameOk then
    ⟨OpResult.executed, preEffs ++ [FsEff.rename src dst], [okLog]⟩
  else if o.shutilMoveOk then
    ⟨OpResult.executed, preEffs ++ [FsEff.shutilMove src dst], [okLog]⟩
  else
    ⟨OpResult.opError ⟨"MOVE_FAILED", 500⟩, preEffs, [failLog]⟩

/-- The pre-confirm part of `FileOpsService.move`. -/
def moveStage (fs : Fs) (o : FsOracle) (hmac : List Char → List Char)
    (srcReq dstReq : ReqStr) (createParents : Bool) : StageRes :=
  match srcReq, dstReq with
  | ReqStr.str srcRaw, ReqStr.str dstRaw =>
    match normalize_rel_path srcRaw, normalize_rel_path dstRaw with
    | Except.ok src, Except.ok dst =>
      if src = [] ∨ dst = [] then StageRes.early ⟨"INVALID_PATH", 400⟩ []
      else if ¬ o.sandboxAbs src then StageRes.early ⟨"SANDBOX_VIOLATION", 400⟩ []
      else
        match fileInfoOf fs src with
        | Except.error e => StageRes.early e []
        | Except.ok srcInfo =>
          let dstParent := (splitParentRel dst).1
          let dstName := (splitParentRel dst).2
          if dstName = [] then StageRes.early ⟨"INVALID_PATH", 400⟩ []
          else if srcInfo.is_dir ∧ isSubpathRel src dst ∧ ¬ (src = dst) then
            StageRes.early ⟨"INVALID_MOVE", 400⟩ []
          else if ¬ o.sandboxAbsMissing dstParent then
            StageRes.early ⟨"SANDBOX_VIOLATION", 400⟩ []
          else if dstParent ≠ [] ∧ fsExists fs dstParent ∧ ¬ fsIsDir fs dstParent then
            StageRes.early ⟨"DST_PARENT_NOT_DIR", 409⟩ []
          else if dstParent ≠ [] ∧ ¬ fsExists fs dstParent ∧ ¬ createParents then
            StageRes.early ⟨"DST_PARENT_MISSING", 409⟩ []
          else if fsExists fs dst then StageRes.early ⟨"DST_EXISTS", 409⟩ []
          else
            let payload : TokenPayload :=
              ⟨"move".data, src, some dst, srcInfo.is_dir, srcInfo.size_bytes,
               srcInfo.mtime_ms, some createParents⟩
            StageRes.gate (hmac (canonicalJsonPayload payload)) []
              (moveExec o src dst dstParent srcInfo createParents)
    | _, _ => StageRes.uncaught
  | _, _ => StageRes.early ⟨"INVALID_REQUEST", 400⟩ []

/-- Embedding of `FileOpsService.move`. -/
def moveOp (fs : Fs) (o : FsOracle) (hmac : List Char → List Char)
    (req : Request) : OpOutcome :=
  runStaged req (moveStage fs o hmac req.src req.dst req.create_parents)

/-- The `try` block of a confirmed archive: rename (or the `shutil.move`
fallback), the `meta.json` write, the success log; on exception a failure log,
a best-effort rollback `rmtree` of the trash entry, and `ARCHIVE_FAILED`. -/
def archiveExec (o : FsOracle) (rel : List Char) (info : FileInfo)
    (entryRel dstRel : List Char) (effs0 : List FsEff) : OpOutcome :=
  let metaPath := entryRel ++ '/' :: "meta.json".data
  let effs1 := effs0 ++ [FsEff.mkdir entryRel]
  let okLog : LogEntry := ⟨"archive", rel, some dstRel, info.is_dir, true, none⟩
  let failOutcome : List FsEff → OpOutcome := fun effs =>
    ⟨OpResult.opError ⟨"ARCHIVE_FAILED", 500⟩,
     effs ++ (if o.rollbackEntrySeen ∧ o.rollbackRmtreeOk then [FsEff.rmtree entryRel] else []),
     [⟨"archive", rel, some dstRel, info.is_dir, false, some o.excMsg⟩]⟩
  if o.renameOk then
    if o.writeMetaOk then
      ⟨OpResult.executed, effs1 ++ [FsEff.rename rel dstRel, FsEff.writeText metaPath], [okLog]⟩
    else failOutcome (effs1 ++ [FsEff.rename rel dstRel])
  else if o.shutilMoveOk then
    if o.writeMetaOk then
      ⟨OpResult.executed, effs1 ++ [FsEff.shutilMove rel dstRel, FsEff.writeText metaPath],
        [okLog]⟩
    else failOutcome (effs1 ++ [FsEff.shutilMove rel dstRel])
  else failOutcome effs1

/-- The confirmed path of an archive after the token check: `_ensure_trash_dir`,
entry-dir resolution and creation, then `archiveExec`. -/
def archiveConfirmed (fs : Fs) (o : FsOracle) (rel : List Char) (info : FileInfo)
    (entryRel dstRel : List Char) : OpOutcome :=
  match ensureTrashDir fs o with
  | (effs0, some e) => ⟨OpResult.opError e, effs0, []⟩
  | (effs0, none) =>
    if ¬ o.sandboxAbsMissing entryRel then
      ⟨OpResult.opError ⟨"SANDBOX_VIOLATION", 400⟩, effs0, []⟩
    else if fsExists fs entryRel then
      ⟨OpResult.opError ⟨"TRASH_ENTRY_EXISTS", 409⟩, effs0, []⟩
    else if ¬ o.mkdirOk entryRel then
      ⟨OpResult.opError ⟨"TRASH_CREATE_FAILED", 500⟩, effs0, []⟩
    else archiveExec o rel info entryRel dstRel effs0

/-- The pre-confirm part of `_archive_to_trash` (entered from `delete` with a
normalized, non-root, non-trash `rel`). -/
def archiveStage (fs : Fs) (o : FsOracle) (hmac : List Char → List Char)
    (rel : List Char) : StageRes :=
  if ¬ o.sandboxAbs rel then StageRes.early ⟨"SANDBOX_VIOLATION", 400⟩ []
  else
    match fileInfoOf fs rel with
    | Except.error e => StageRes.early e []
    | Except.ok info =>
      let payload : TokenPayload :=
        ⟨"archive".data, rel, none, info.is_dir, info.size_bytes, info.mtime_ms, none⟩
      let expected := hmac (canonicalJsonPayload payload)
      let entryRel := "_trash/".data ++ expected
      let dstRel := entryRel ++ '/' :: (splitParentRel rel).2
      StageRes.gate expected [] (archiveConfirmed fs o rel info entryRel dstRel)

def archiveOp (fs : Fs) (o : FsOracle) (hmac : List Char → List Char)
    (req : Request) (rel : List Char) : OpOutcome :=
  runStaged req (archiveStage fs o hmac rel)

/-- The pre-confirm part of `_purge_from_trash`. -/
def purgeStage (fs : Fs) (o : FsOracle) (hmac : List Char → List Char)
    (rel : List Char) : StageRes :=
  if ¬ o.sandboxAbs rel then StageRes.early ⟨"SANDBOX_VIOLATION", 400⟩ []
  else if rel = "_trash".data then StageRes.early ⟨"TRASH_ROOT_FORBIDDEN", 403⟩ []
  else
    match fileInfoOf fs rel with
    | Except.error e => StageRes.early e []
    | Except.ok info =>
      let payload : TokenPayload :=
        ⟨"purge".data, rel, none, info.is_dir, info.size_bytes, info.mtime_ms, none⟩
      StageRes.gate (hmac (canonicalJsonPayload payload)) []
        (if info.is_dir then
          if o.rmtreeOk then
            ⟨OpResult.executed, [FsEff.rmtree rel],
             [⟨"purge", rel, none, info.is_dir, true, none⟩]⟩
          else
            ⟨OpResult.opError ⟨"PURGE_FAILED", 500⟩, [],
             [⟨"purge", rel, none, info.is_dir, false, some o.excMsg⟩]⟩
        else
          if o.unlinkOk then
            ⟨OpResult.executed, [FsEff.unlink rel],
             [⟨"purge", rel, none, info.is_dir, true, none⟩]⟩
          else
            ⟨OpResult.opError ⟨"PURGE_FAILED", 500⟩, [],
             [⟨"purge", rel, none, info.is_dir, false, some o.excMsg⟩]⟩)

def purgeOp (fs : Fs) (o : FsOracle) (hmac : List Char → List Char)
    (req : Request) (rel : List Char) : OpOutcome :=
  runStaged req (purgeStage fs o hmac rel)

/-- A request-level staged result: an error raised before the GC call, an
uncaught `SandboxViolation`, or a dispatched per-operation stage that runs
after the GC. -/
inductive ReqStaged
  | early (e : FileOpsErr)
  | uncaught
  | dispatch (st : StageRes)

/-- Shared wrapper: the GC runs, then the dispatched stage is gated on
`confirm`/`confirm_token` exactly as in `runStaged`. -/
def wrapGc (gc : GcCtx) (req : Request) : ReqStaged → ReqOutcome
  | ReqStaged.early e => ⟨OpResult.opError e, [], [], [], []⟩
  | ReqStaged.uncaught => ⟨OpResult.uncaughtSandbox, [], [], [], []⟩
  | ReqStaged.dispatch st =>
    let g := gcRun gc
    let inner := runStaged req st
    ⟨inner.result, g.1, g.2, inner.effs, inner.log⟩

/-- The pre-GC part of `FileOpsService.delete`: request validation, the
root/trash-root refusals, then dispatch to purge (inside `_trash/`) or
archive. -/
def deleteStage (fs : Fs) (o : FsOracle) (hmac : List Char → List Char)
    (pathReq : ReqStr) : ReqStaged :=
  match pathReq with
  | ReqStr.str raw =>
    match normalize_rel_path raw with
    | Except.error _ => ReqStaged.uncaught
    | Except.ok rel =>
      if rel = [] then ReqStaged.early ⟨"ROOT_FORBIDDEN", 403⟩
      else if rel = "_trash".data then ReqStaged.early ⟨"TRASH_ROOT_FORBIDDEN", 403⟩
      else ReqStaged.dispatch
        (if "_trash/".data.isPrefixOf rel then purgeStage fs o hmac rel
         else archiveStage fs o hmac rel)
  | _ => ReqStaged.early ⟨"INVALID_REQUEST", 400⟩

/-- Embedding of `FileOpsService.delete`. -/
def deleteOp (fs : Fs) (o : FsOracle) (hmac : List Char → List Char)
    (gc : GcCtx) (req : Request) : ReqOutcome :=
  wrapGc gc req (deleteStage fs o hmac req.path)

/-- The `try` block of a confirmed restore.  `FileOpsError`s raised inside it
(the sandbox re-check and the destination re-check) are re-raised without
logging (`except FileOpsError: raise`); any other exception logs a failed
restore and surfaces `RESTORE_FAILED`. -/
def restoreExec (o : FsOracle) (payloadRel dstRel dstParent entryDirRel : List Char)
    (info : FileInfo) : OpOutcome :=
  let failLog : LogEntry := ⟨"restore", payloadRel, some dstRel, info.is_dir, false, some o.excMsg⟩
  let okLog : LogEntry := ⟨"restore", payloadRel, some dstRel, info.is_dir, true, none⟩
  let metaPath := entryDirRel ++ '/' :: "meta.json".data
  let preEffs : List FsEff := if dstParent ≠ [] then [FsEff.mkdir dstParent] else []
  let cleanupEffs : List FsEff :=
    if o.metaUnlinkOk then
      FsEff.unlink metaPath :: (if o.entryRmdirOk then [FsEff.rmdir entryDirRel] else [])
    else []
  if dstParent ≠ [] ∧ ¬ o.mkdirOk dstParent then
    ⟨OpResult.opError ⟨"RESTORE_FAILED", 500⟩, [], [failLog]⟩
  else if dstParent ≠ [] ∧ ¬ o.sandboxAbsRecheck then
    ⟨OpResult.opError ⟨"SANDBOX_VIOLATION", 400⟩, preEffs, []⟩
  else if o.dstExistsRecheck then
    ⟨OpResult.opError ⟨"DST_EXISTS", 409⟩, preEffs, []⟩
  else if o.renameOk then
    ⟨OpResult.executed, preEffs ++ [FsEff.rename payloadRel dstRel] ++ cleanupEffs, [okLog]⟩
  else if o.shutilMoveOk then
    ⟨OpResult.executed, preEffs ++ [FsEff.shutilMove payloadRel dstRel] ++ cleanupEffs, [okLog]⟩
  else
    ⟨OpResult.opError ⟨"RESTORE_FAILED", 500⟩, preEffs, [failLog]⟩

/-- The pre-confirm part of the body of `trash_restore` after the GC call. -/
def restoreStage (fs : Fs) (o : FsOracle) (hmac : List Char → List Char)
    (rel : List Char) : StageRes :=
  match splitSlash rel with
  | p0 :: p1 :: _ =>
    if p1 = [] then StageRes.early ⟨"INVALID_PATH", 400⟩ []
    else
      let entryDirRel := p0 ++ '/' :: p1
      if ¬ o.sandboxAbs entryDirRel then StageRes.early ⟨"SANDBOX_VIOLATION", 400⟩ []
      else if ¬ fsIsDir fs entryDirRel then StageRes.early ⟨"TRASH_ENTRY_NOT_DIR", 409⟩ []
      else
        match fs.trashMeta entryDirRel with
        | MetaResult.missing => StageRes.early ⟨"TRASH_META_MISSING", 404⟩ []
        | MetaResult.readFail => StageRes.early ⟨"TRASH_META_READ_FAILED", 500⟩ []
        | MetaResult.invalid => StageRes.early ⟨"TRASH_META_INVALID", 500⟩ []
        | MetaResult.okMeta srcMeta payMeta =>
          match srcMeta, payMeta with
          | ReqStr.str srcOriginal, ReqStr.str payloadName =>
            if srcOriginal = [] ∨ payloadName = [] then
              StageRes.early ⟨"TRASH_META_INVALID", 500⟩ []
            else
              match normalize_rel_path srcOriginal with
              | Except.error _ => StageRes.uncaught
              | Except.ok dstRel =>
                if "_trash/".data.isPrefixOf dstRel then
                  StageRes.early ⟨"TRASH_META_INVALID", 500⟩ []
                else
                  let payloadRel := entryDirRel ++ '/' :: payloadName
                  match fileInfoOf fs payloadRel with
                  | Except.error e => StageRes.early e []
                  | Except.ok info =>
                    let dstParent := (splitParentRel dstRel).1
                    let dstName := (splitParentRel dstRel).2
                    if dstName = [] then StageRes.early ⟨"INVALID_PATH", 500⟩ []
                    else if ¬ o.sandboxAbsMissing dstParent then
                      StageRes.early ⟨"SANDBOX_VIOLATION", 400⟩ []
                    else if fsExists fs dstRel then
                      StageRes.early ⟨"DST_EXISTS", 409⟩ []
                    else
                      let payload : TokenPayload :=
                        ⟨"restore".data, payloadRel, some dstRel, info.is_dir,
                         info.size_bytes, info.mtime_ms, none⟩
                      StageRes.gate (hmac (canonicalJsonPayload payload)) []
                        (restoreExec o payloadRel dstRel dstParent entryDirRel info)
          | _, _ => StageRes.early ⟨"TRASH_META_INVALID", 500⟩ []
  | _ => StageRes.early ⟨"INVALID_PATH", 400⟩ []

/-- The pre-GC part of `trash_restore`. -/
def restorePre (fs : Fs) (o : FsOracle) (hmac : List Char → List Char)
    (pathReq : ReqStr) : ReqStaged :=
  match pathReq with
  | ReqStr.str raw =>
    match normalize_rel_path raw with
    | Except.error _ => ReqStaged.uncaught
    | Except.ok rel =>
      if rel = [] then ReqStaged.early ⟨"INVALID_PATH", 400⟩
      else if rel = "_trash".data then ReqStaged.early ⟨"TRASH_ROOT_FORBIDDEN", 400⟩
      else if ¬ "_trash/".data.isPrefixOf rel then ReqStaged.early ⟨"NOT_IN_TRASH", 400⟩
      else ReqStaged.dispatch (restoreStage fs o hmac rel)
  | _ => ReqStaged.early ⟨"INVALID_REQUEST", 400⟩

/-- Embedding of `FileOpsService.trash_restore`. -/
def restoreOp (fs : Fs) (o : FsOracle) (hmac : List Char → List Char)
    (gc : GcCtx) (req : Request) : ReqOutcome :=
  wrapGc gc req (restorePre fs o hmac req.path)

def strLeB : List Char → List Char → Bool
  | [], _ => true
  | _ :: _, [] => false
  | a :: as, b :: bs =>
    if a.toNat < b.toNat then true
    else if b.toNat < a.toNat then false
    else strLeB as bs

/-- Model of Python `"\n".join(entries)`. -/
def joinNewline : List (List Char) → List Char
  | [] => []
  | [p] => p
  | p :: q :: rest => p ++ '\n' :: joinNewline (q :: rest)

/-- The removal loop of a confirmed `trash_empty`: `FileNotFoundError`
continues, any other exception aborts the loop. -/
def emptyLoop (o : FsOracle) : List (List Char) → List FsEff × Bool
  | [] => ([], true)
  | n :: rest =>
    match o.safeRemove n with
    | SafeRemoveRes.removed =>
      let r := emptyLoop o rest
      (FsEff.safeRemove ("_trash/".data ++ n) :: r.1, r.2)
    | SafeRemoveRes.notFound => emptyLoop o rest
    | SafeRemoveRes.raised => ([], false)

/-- The pre-confirm part of `trash_empty` after the GC call: ensure the trash
directory, list and sort its entries, build the snapshot token payload. -/
def trashEmptyStage (fs : Fs) (o : FsOracle) (hmac sha1 : List Char → List Char) : StageRes :=
  match ensureTrashDir fs o with
  | (effs0, some e) => StageRes.early e effs0
  | (effs0, none) =>
    match fs.listTrash with
    | ListTrashRes.osError => StageRes.early ⟨"TRASH_LIST_FAILED", 500⟩ effs0
    | other =>
      let entries :=
        match other with
        | ListTrashRes.okList names => names.mergeSort strLeB
        | _ => []
      let trashMtime :=
        match fs.stat "_trash".data with
        | some st => st.mtime_ms
        | none => none
      let payload : TrashEmptyPayload :=
        ⟨entries.length, sha1 (joinNewline entries), trashMtime⟩
      StageRes.gate (hmac (canonicalJsonTrashEmpty payload)) effs0
        (let r := emptyLoop o entries
         if r.2 then
           ⟨OpResult.executed, effs0 ++ r.1,
            [⟨"purge", "_trash".data, none, true, true, none⟩]⟩
         else
           ⟨OpResult.opError ⟨"TRASH_EMPTY_FAILED", 500⟩, effs0 ++ r.1,
            [⟨"purge", "_trash".data, none, true, false, some o.excMsg⟩]⟩)

/-- Embedding of `FileOpsService.trash_empty`. -/
def trashEmptyOp (fs : Fs) (o : FsOracle) (hmac sha1 : List Char → List Char)
    (gc : GcCtx) (req : Request) : ReqOutcome :=
  wrapGc gc req (ReqStaged.dispatch (trashEmptyStage fs o hmac sha1))

/-! ### C4: the confirm-token gate -/

/-- The token forms rejected as `CONFIRM_TOKEN_REQUIRED`: absent, not a
string, or the empty string. -/
def tokenInvalidForm (t : ReqStr) : Prop :=
  t = ReqStr.absent ∨ t = ReqStr.nonString ∨ t = ReqStr.str []

theorem runStaged_preview_inv (req : Request) (st : StageRes) (tok : List Char)
    (h : (runStaged { req with confirm := false } st).result = OpResult.preview tok) :
    ∃ effs0 exec, st = StageRes.gate tok effs0 exec := by
  cases st with
  | early e effs => simp [runStaged] at h
  | uncaught => simp [runStaged] at h
  | gate expected effs0 exec =>
    simp [runStaged] at h
    exact ⟨effs0, exec, by rw [h]⟩

theorem runStaged_gate_invalid (req : Request) (tok : List Char)
    (effs0 : List FsEff) (exec : OpOutcome)
    (hc : req.confirm = true) (ht : tokenInvalidForm req.confirm_token) :
    runStaged req (StageRes.gate tok effs0 exec) =
      ⟨OpResult.opError ⟨"CONFIRM_TOKEN_REQUIRED", 400⟩, effs0, []⟩ := by
  unfold runStaged
  rw [hc]
  rcases ht with h | h | h <;> rw [h] <;> rfl

theorem runStaged_gate_stale (req : Request) (tok : List Char)
    (effs0 : List FsEff) (exec : OpOutcome) (t : List Char)
    (hc : req.confirm = true) (ht : req.confirm_token = ReqStr.str t)
    (hne : t ≠ []) (hnm : t ≠ tok) :
    runStaged req (StageRes.gate tok effs0 exec) =
      ⟨OpResult.opError ⟨"STALE_CONFIRM_TOKEN", 409⟩, effs0, []⟩ := by
  unfold runStaged
  rw [hc, ht]
  simp [checkToken, hne, hnm]

theorem moveStage_gate_effs (fs : Fs) (o : FsOracle) (hmac : List Char → List Char)
    (srcReq dstReq : ReqStr) (cp : Bool) (tok : List Char)
    (effs0 : List FsEff) (exec : OpOutcome)
    (h : moveStage fs o hmac srcReq dstReq cp = StageRes.gate tok effs0 exec) :
    effs0 = [] := by
  simp only [moveStage] at h
  repeat' (split at h)
  all_goals (cases h; try rfl)

theorem archiveStage_gate_effs (fs : Fs) (o : FsOracle) (hmac : List Char → List Char)
    (rel : List Char) (tok : List Char) (effs0 : List FsEff) (exec : OpOutcome)
    (h : archiveStage fs o hmac rel = StageRes.gate tok effs0 exec) :
    effs0 = [] := by
  simp only [archiveStage] at h
  repeat' (split at h)
  all_goals (cases h; try rfl)

theorem purgeStage_gate_effs (fs : Fs) (o : FsOracle) (hmac : List Char → List Char)
    (rel : List Char) (tok : List Char) (effs0 : List FsEff) (exec : OpOutcome)
    (h : purgeStage fs o hmac rel = StageRes.gate tok effs0 exec) :
    effs0 = [] := by
  simp only [purgeStage] at h
  repeat' (split at h)
  all_goals (cases h; try rfl)

theorem restoreStage_gate_effs (fs : Fs) (o : FsOracle) (hmac : List Char → List Char)
    (rel : List Char) (tok : List Char) (effs0 : List FsEff) (exec : OpOutcome)
    (h : restoreStage fs o hmac rel = StageRes.gate tok effs0 exec) :
    effs0 = [] := by
  simp only [restoreStage] at h
  repeat' (split at h)
  all_goals (cases h; try rfl)

theorem trashEmptyStage_gate_effs (fs : Fs) (o : FsOracle)
    (hmac sha1 : List Char → List Char) (tok : List Char)
    (effs0 : List FsEff) (exec : OpOutcome)
    (h : trashEmptyStage fs o hmac sha1 = StageRes.gate tok effs0 exec) :
    effs0 = [] ∨ effs0 = [FsEff.mkdir "_trash".data] := by
  have hens : ∀ effsE res, ensureTrashDir fs o = (effsE, res) →
      effsE = [] ∨ effsE = [FsEff.mkdir "_trash".data] := by
    intro effsE res hE
    unfold ensureTrashDir at hE
    repeat' (split at hE)
    all_goals (injection hE with hA hB; subst hA; simp)
  simp only [trashEmptyStage] at h
  repeat' (split at h)
  all_goals (try exact StageRes.noConfusion h)
  all_goals
    injection h with h1 h2 h3
    subst h2
    exact hens _ _ (by assumption)

theorem wrapGc_preview_inv (gc : GcCtx) (req : Request) (ds : ReqStaged) (tok : List Char)
    (h : (wrapGc gc { req with confirm := false } ds).result = OpResult.preview tok) :
    ∃ st effs0 exec, ds = ReqStaged.dispatch st ∧ st = StageRes.gate tok effs0 exec := by
  cases ds with
  | early e => simp [wrapGc] at h
  | uncaught => simp [wrapGc] at h
  | dispatch st =>
    have h2 : (runStaged { req with confirm := false } st).result = OpResult.preview tok := h
    obtain ⟨effs0, exec, hst⟩ := runStaged_preview_inv req st tok h2
    exact ⟨st, effs0, exec, rfl, hst⟩

theorem wrapGc_gate_invalid (gc : GcCtx) (req : Request) (tok : List Char)
    (effs0 : List FsEff) (exec : OpOutcome)
    (hc : req.confirm = true) (ht : tokenInvalidForm req.confirm_token) :
    wrapGc gc req (ReqStaged.dispatch (StageRes.gate tok effs0 exec)) =
      ⟨OpResult.opError ⟨"CONFIRM_TOKEN_REQUIRED", 400⟩,
        (gcRun gc).1, (gcRun gc).2, effs0, []⟩ := by
  have hw : wrapGc gc req (ReqStaged.dispatch (StageRes.gate tok effs0 exec)) =
      ⟨(runStaged req (StageRes.gate tok effs0 exec)).result, (gcRun gc).1, (gcRun gc).2,
       (runStaged req (StageRes.gate tok effs0 exec)).effs,
       (runStaged req (StageRes.gate tok effs0 exec)).log⟩ := rfl
  rw [hw, runStaged_gate_invalid req tok effs0 exec hc ht]

theorem wrapGc_gate_stale (gc : GcCtx) (req : Request) (tok : List Char)
    (effs0 : List FsEff) (exec : OpOutcome) (t : List Char)
    (hc : req.confirm = true) (ht : req.confirm_token = ReqStr.str t)
    (hne : t ≠ []) (hnm : t ≠ tok) :
    wrapGc gc req (ReqStaged.dispatch (StageRes.gate tok effs0 exec)) =
      ⟨OpResult.opError ⟨"STALE_CONFIRM_TOKEN", 409⟩,
        (gcRun gc).1, (gcRun gc).2, effs0, []⟩ := by
  have hw : wrapGc gc req (ReqStaged.dispatch (StageRes.gate tok effs0 exec)) =
      ⟨(runStaged req (StageRes.gate tok effs0 exec)).result, (gcRun gc).1, (gcRun gc).2,
       (runStaged req (StageRes.gate tok effs0 exec)).effs,
       (runStaged req (StageRes.gate tok effs0 exec)).log⟩ := rfl
  rw [hw, runStaged_gate_stale req tok effs0 exec t hc ht hne hnm]

theorem deleteStage_dispatch_gate_effs (fs : Fs) (o : FsOracle)
    (hmac : List Char → List Char) (pathReq : ReqStr) (st : StageRes)
    (tok : List Char) (effs0 : List FsEff) (exec : OpOutcome)
    (hds : deleteStage fs o hmac pathReq = ReqStaged.dispatch st)
    (hst : st = StageRes.gate tok effs0 exec) : effs0 = [] := by
  simp only [deleteStage] at hds
  repeat' (split at hds)
  all_goals (try exact ReqStaged.noConfusion hds)
  all_goals
    injection hds with hd
    subst hd
  all_goals first
    | exact purgeStage_gate_effs _ _ _ _ _ _ _ hst
    | exact archiveStage_gate_effs _ _ _ _ _ _ _ hst

theorem restorePre_dispatch_gate_effs (fs : Fs) (o : FsOracle)
    (hmac : List Char → List Char) (pathReq : ReqStr) (st : StageRes)
    (tok : List Char) (effs0 : List FsEff) (exec : OpOutcome)
    (hds : restorePre fs o hmac pathReq = ReqStaged.dispatch st)
    (hst : st = StageRes.gate tok effs0 exec) : effs0 = [] := by
  simp only [restorePre] at hds
  repeat' (split at hds)
  all_goals (try exact ReqStaged.noConfusion hds)
  all_goals
    injection hds with hd
    subst hd
    exact restoreStage_gate_effs _ _ _ _ _ _ _ hst

/-- C4 exactly as the claim states it, in the weak form refuted below: a
confirmed delete request with a missing token raises `CONFIRM_TOKEN_REQUIRED`
and leaves the filesystem unchanged (no effects at all, retention GC
included). -/
def c4ClaimAsStated : Prop :=
  ∀ (fs : Fs) (o : FsOracle) (hmac : List Char → List Char) (gc : GcCtx) (req : Request),
    req.confirm = true → req.confirm_token = ReqStr.absent →
    (deleteOp fs o hmac gc req).result = OpResult.opError ⟨"CONFIRM_TOKEN_REQUIRED", 400⟩ →
    (deleteOp fs o hmac gc req).gcEffs ++ (deleteOp fs o hmac gc req).effs = []

/-- A filesystem with a file `a.txt` at the root. -/
def fsW : Fs :=
  ⟨fun p =>
    if p = "a.txt".data then some ⟨false, some 5, some 1000⟩
    else if p = [] then some ⟨true, none, some 0⟩
    else none,
   fun _ => MetaResult.missing, ListTrashRes.okList []⟩

/-- An environment where every sandbox resolution and mutation succeeds. -/
def oPass : FsOracle :=
  ⟨fun _ => true, fun _ => true, fun _ => true, true, false, true, true, true,
   false, false, true, true, true, true, fun _ => SafeRemoveRes.removed, "exc"⟩

/-- A GC context that is throttled (does not run). -/
def gcOff : GcCtx := ⟨false, 0, []⟩

/-- A GC context holding one expired, removable trash entry. -/
def gcActive : GcCtx :=
  ⟨true, 1000000000000, [⟨"old".data, true, some 1, false, none, none, true⟩]⟩

/-- A confirmed delete request for `a.txt` carrying no confirm token. -/
def reqDelNoTok : Request :=
  ⟨ReqStr.str "a.txt".data, ReqStr.absent, ReqStr.absent, false, true, ReqStr.absent⟩

/-- C4 counterexample: a confirmed delete of `a.txt` with a missing token is
rejected with `CONFIRM_TOKEN_REQUIRED`, yet the filesystem has changed — the
retention GC that runs at the start of `delete` removed the expired trash
entry `_trash/old`. -/
theorem c4_counterexample : ¬ c4ClaimAsStated := by
  intro h
  have h2 := h fsW oPass id gcActive reqDelNoTok rfl rfl (by rfl)
  exact absurd h2 (by decide)

/-- C4 amended: for each mutation operation, if the same request without
`confirm` yields a preview with token `tok` (that is, the request passes all
pre-token validation), then the confirmed request with a missing, non-string
or empty `confirm_token` raises `CONFIRM_TOKEN_REQUIRED` (400), and with a
non-empty string token different from `tok` raises `STALE_CONFIRM_TOKEN`
(409); in both cases the operation itself performs no filesystem effect and
writes no log entry.  Exceptions, as the code behaves: the retention GC at the
start of delete/restore/trash-empty may still mutate and log, and trash-empty
may have created the (empty) `_trash` directory before the token check. -/
theorem c4_token_gate (fs : Fs) (o : FsOracle) (hmac sha1 : List Char → List Char)
    (gc : GcCtx) (req : Request) (tok : List Char) :
    ((moveOp fs o hmac { req with confirm := false }).result = OpResult.preview tok →
      (tokenInvalidForm req.confirm_token →
        moveOp fs o hmac { req with confirm := true } =
          ⟨OpResult.opError ⟨"CONFIRM_TOKEN_REQUIRED", 400⟩, [], []⟩) ∧
      (∀ t, req.confirm_token = ReqStr.str t → t ≠ [] → t ≠ tok →
        moveOp fs o hmac { req with confirm := true } =
          ⟨OpResult.opError ⟨"STALE_CONFIRM_TOKEN", 409⟩, [], []⟩)) ∧
    ((deleteOp fs o hmac gc { req with confirm := false }).result = OpResult.preview tok →
      (tokenInvalidForm req.confirm_token →
        deleteOp fs o hmac gc { req with confirm := true } =
          ⟨OpResult.opError ⟨"CONFIRM_TOKEN_REQUIRED", 400⟩,
            (gcRun gc).1, (gcRun gc).2, [], []⟩) ∧
      (∀ t, req.confirm_token = ReqStr.str t → t ≠ [] → t ≠ tok →
        deleteOp fs o hmac gc { req with confirm := true } =
          ⟨OpResult.opError ⟨"STALE_CONFIRM_TOKEN", 409⟩,
            (gcRun gc).1, (gcRun gc).2, [], []⟩)) ∧
    ((restoreOp fs o hmac gc { req with confirm := false }).result = OpResult.preview tok →
      (tokenInvalidForm req.confirm_token →
        restoreOp fs o hmac gc { req with confirm := true } =
          ⟨OpResult.opError ⟨"CONFIRM_TOKEN_REQUIRED", 400⟩,
            (gcRun gc).1, (gcRun gc).2, [], []⟩) ∧
      (∀ t, req.confirm_token = ReqStr.str t → t ≠ [] → t ≠ tok →
        restoreOp fs o hmac gc { req with confirm := true } =
          ⟨OpResult.opError ⟨"STALE_CONFIRM_TOKEN", 409⟩,
            (gcRun gc).1, (gcRun gc).2, [], []⟩)) ∧
    ((trashEmptyOp fs o hmac sha1 gc { req with confirm := false }).result =
        OpResult.preview tok →
      ∃ effs0, (effs0 = [] ∨ effs0 = [FsEff.mkdir "_trash".data]) ∧
      (tokenInvalidForm req.confirm_token →
        trashEmptyOp fs o hmac sha1 gc { req with confirm := true } =
          ⟨OpResult.opError ⟨"CONFIRM_TOKEN_REQUIRED", 400⟩,
            (gcRun gc).1, (gcRun gc).2, effs0, []⟩) ∧
      (∀ t, req.confirm_token = ReqStr.str t → t ≠ [] → t ≠ tok →
        trashEmptyOp fs o hmac sha1 gc { req with confirm := true } =
          ⟨OpResult.opError ⟨"STALE_CONFIRM_TOKEN", 409⟩,
            (gcRun gc).1, (gcRun gc).2, effs0, []⟩)) := by
  refine ⟨?_, ?_, ?_, ?_⟩
  · intro h
    obtain ⟨effs0, exec, hst⟩ :=
      runStaged_preview_inv req (moveStage fs o hmac req.src req.dst req.create_parents) tok h
    have heffs := moveStage_gate_effs fs o hmac req.src req.dst req.create_parents
      tok effs0 exec hst
    subst heffs
    have hrw : moveOp fs o hmac { req with confirm := true } =
        runStaged { req with confirm := true } (StageRes.gate tok [] exec) := by
      show runStaged { req with confirm := true }
          (moveStage fs o hmac req.src req.dst req.create_parents) = _
      rw [hst]
    constructor
    · intro hinv
      rw [hrw]
      exact runStaged_gate_invalid _ tok [] exec rfl hinv
    · intro t ht hne hnm
      rw [hrw]
      exact runStaged_gate_stale _ tok [] exec t rfl ht hne hnm
  · intro h
    obtain ⟨st, effs0, exec, hds, hst⟩ :=
      wrapGc_preview_inv gc req (deleteStage fs o hmac req.path) tok h
    have heffs := deleteStage_dispatch_gate_effs fs o hmac req.path st tok effs0 exec hds hst
    subst heffs
    have hrw : deleteOp fs o hmac gc { req with confirm := true } =
        wrapGc gc { req with confirm := true }
          (ReqStaged.dispatch (StageRes.gate tok [] exec)) := by
      show wrapGc gc { req with confirm := true } (deleteStage fs o hmac req.path) = _
      rw [hds, hst]
    constructor
    · intro hinv
      rw [hrw]
      exact wrapGc_gate_invalid gc _ tok [] exec rfl hinv
    · intro t ht hne hnm
      rw [hrw]
      exact wrapGc_gate_stale gc _ tok [] exec t rfl ht hne hnm
  · intro h
    obtain ⟨st, effs0, exec, hds, hst⟩ :=
      wrapGc_preview_inv gc req (restorePre fs o hmac req.path) tok h
    have heffs := restorePre_dispatch_gate_effs fs o hmac req.path st tok effs0 exec hds hst
    subst heffs
    have hrw : restoreOp fs o hmac gc { req with confirm := true } =
        wrapGc gc { req with confirm := true }
          (ReqStaged.dispatch (StageRes.gate tok [] exec)) := by
      show wrapGc gc { req with confirm := true } (restorePre fs o hmac req.path) = _
      rw [hds, hst]
    constructor
    · intro hinv
      rw [hrw]
      exact wrapGc_gate_invalid gc _ tok [] exec rfl hinv
    · intro t ht hne hnm
      rw [hrw]
      exact wrapGc_gate_stale gc _ tok [] exec t rfl ht hne hnm
  · intro h
    obtain ⟨st, effs0, exec, hds, hst⟩ :=
      wrapGc_preview_inv gc req (ReqStaged.dispatch (trashEmptyStage fs o hmac sha1)) tok h
    have hst2 : trashEmptyStage fs o hmac sha1 = StageRes.gate tok effs0 exec := by
      injection hds with hd
      rw [hd, hst]
    refine ⟨effs0, trashEmptyStage_gate_effs fs o hmac sha1 tok effs0 exec hst2, ?_, ?_⟩
    · intro hinv
      have hrw : trashEmptyOp fs o hmac sha1 gc { req with confirm := true } =
          wrapGc gc { req with confirm := true }
            (ReqStaged.dispatch (StageRes.gate tok effs0 exec)) := by
        show wrapGc gc { req with confirm := true }
            (ReqStaged.dispatch (trashEmptyStage fs o hmac sha1)) = _
        rw [hst2]
      rw [hrw]
      exact wrapGc_gate_invalid gc _ tok effs0 exec rfl hinv
    · intro t ht hne hnm
      have hrw : trashEmptyOp fs o hmac sha1 gc { req with confirm := true } =
          wrapGc gc { req with confirm := true }
            (ReqStaged.dispatch (StageRes.gate tok effs0 exec)) := by
        show wrapGc gc { req with confirm := true }
            (ReqStaged.dispatch (trashEmptyStage fs o hmac sha1)) = _
        rw [hst2]
      rw [hrw]
      exact wrapGc_gate_stale gc _ tok effs0 exec t rfl ht hne hnm

/-- The expected token for moving `a.txt` to `b.txt` under the identity HMAC. -/
def tokW : List Char :=
  canonicalJsonPayload
    ⟨"move".data, "a.txt".data, some "b.txt".data, false, some 5, some 1000, some false⟩

/-- A move request for `a.txt` → `b.txt` with a missing confirm token. -/
def reqMoveW : Request :=
  ⟨ReqStr.absent, ReqStr.str "a.txt".data, ReqStr.str "b.txt".data, false, false, ReqStr.absent⟩

/-- Witness for C4 at a concrete input: the preview of the move succeeds with
token `tokW`, and the confirmed request without a token is rejected with
`CONFIRM_TOKEN_REQUIRED` and no effects. -/
theorem c4_token_gate_witness :
    moveOp fsW oPass id { reqMoveW with confirm := true } =
      ⟨OpResult.opError ⟨"CONFIRM_TOKEN_REQUIRED", 400⟩, [], []⟩ :=
  ((c4_token_gate fsW oPass id id gcOff reqMoveW tokW).1 (by rfl)).1 (Or.inl rfl)

/-! ### C3: operation-log discipline -/

/-- The operation appends exactly one log entry iff it executed or failed in
execution (result `executed`, or the operation's execution-failure code at
status 500); every other outcome appends none. -/
def logsOnExec (out : OpOutcome) (failCodes : List String) : Prop :=
  out.log.length =
    (if out.result = OpResult.executed ∨
        (∃ c ∈ failCodes, out.result = OpResult.opError ⟨c, 500⟩) then 1 else 0)

def logsOnExecReq (out : ReqOutcome) (failCodes : List String) : Prop :=
  out.log.length =
    (if out.result = OpResult.executed ∨
        (∃ c ∈ failCodes, out.result = OpResult.opError ⟨c, 500⟩) then 1 else 0)

/-- C3 exactly as the claim states it: every confirmed request appends exactly
one operation-log entry, and previews append none. -/
def c3ClaimAsStated : Prop :=
  ∀ (fs : Fs) (o : FsOracle) (hmac sha1 : List Char → List Char)
    (gc : GcCtx) (req : Request),
    (req.confirm = true →
      (moveOp fs o hmac req).log.length = 1 ∧
      (deleteOp fs o hmac gc req).log.length = 1 ∧
      (restoreOp fs o hmac gc req).log.length = 1 ∧
      (trashEmptyOp fs o hmac sha1 gc req).log.length = 1) ∧
    (req.confirm = false →
      (moveOp fs o hmac req).log = [] ∧
      (deleteOp fs o hmac gc req).log = [] ∧
      (restoreOp fs o hmac gc req).log = [] ∧
      (trashEmptyOp fs o hmac sha1 gc req).log = [])

/-- C3 counterexample: the confirmed move of `a.txt` with a missing confirm
token is processed with `confirm=true` but appends zero log entries. -/
theorem c3_counterexample : ¬ c3ClaimAsStated := by
  intro h
  have h2 := ((h fsW oPass id id gcOff { reqMoveW with confirm := true }).1 rfl).1
  have h3 : (moveOp fsW oPass id { reqMoveW with confirm := true }).log = [] := by rfl
  rw [h3] at h2
  simp at h2

theorem fileInfoOf_error (fs : Fs) (p : List Char) (e : FileOpsErr)
    (h : fileInfoOf fs p = Except.error e) : e = ⟨"STAT_FAILED", 404⟩ := by
  unfold fileInfoOf at h
  split at h
  · injection h with h1; exact h1.symm
  · cases h

theorem ensureTrashDir_some (fs : Fs) (o : FsOracle) (effs : List FsEff) (e : FileOpsErr)
    (h : ensureTrashDir fs o = (effs, some e)) :
    e = ⟨"TRASH_SANDBOX_VIOLATION", 400⟩ ∨ e = ⟨"TRASH_NOT_DIR", 409⟩ ∨
      e = ⟨"TRASH_CREATE_FAILED", 500⟩ := by
  unfold ensureTrashDir at h
  repeat' (split at h)
  all_goals (injection h with h1 h2)
  all_goals (cases h2)
  all_goals simp

theorem checkToken_some (tok : ReqStr) (expected : List Char) (e : FileOpsErr)
    (h : checkToken tok expected = some e) :
    e = ⟨"CONFIRM_TOKEN_REQUIRED", 400⟩ ∨ e = ⟨"STALE_CONFIRM_TOKEN", 409⟩ := by
  unfold checkToken at h
  repeat' (split at h)
  all_goals (first | (injection h with h1; simp [← h1]) | cases h)

theorem runStaged_logsOnExec (req : Request) (st : StageRes) (codes : List String)
    (hearly : ∀ e effs, st = StageRes.early e effs → ¬ (∃ c ∈ codes, e = ⟨c, 500⟩))
    (hexec : ∀ tok effs0 exec, st = StageRes.gate tok effs0 exec → logsOnExec exec codes) :
    logsOnExec (runStaged req st) codes := by
  cases st with
  | early e effs =>
    have he := hearly e effs rfl
    simp only [runStaged, logsOnExec, List.length_nil]
    rw [if_neg]
    rintro (h | ⟨c, hc, hh⟩)
    · cases h
    · exact he ⟨c, hc, (by injection hh with hx; try exact hx)⟩
  | uncaught =>
    simp only [runStaged, logsOnExec, List.length_nil]
    rw [if_neg]
    rintro (h | ⟨c, hc, hh⟩)
    · exact OpResult.noConfusion h
    · exact OpResult.noConfusion hh
  | gate tok effs0 exec =>
    have hr : runStaged req (StageRes.gate tok effs0 exec) =
        (if ¬ req.confirm then ⟨OpResult.preview tok, effs0, []⟩
         else match checkToken req.confirm_token tok with
           | some e => ⟨OpResult.opError e, effs0, []⟩
           | none => exec) := rfl
    rw [hr]
    by_cases hcf : req.confirm
    · rw [if_neg (by simp [hcf])]
      cases hck : checkToken req.confirm_token tok with
      | some e =>
        simp only [logsOnExec, List.length_nil]
        rw [if_neg]
        rintro (h | ⟨c, hc, hh⟩)
        · exact OpResult.noConfusion h
        · injection hh with hx
          rcases checkToken_some _ _ _ hck with he | he <;> rw [he] at hx
          · exact absurd (show (400 : Nat) = 500 from congrArg FileOpsErr.http_status hx)
              (by decide)
          · exact absurd (show (409 : Nat) = 500 from congrArg FileOpsErr.http_status hx)
              (by decide)
      | none => exact hexec tok effs0 exec rfl
    · rw [if_pos (by simp [hcf])]
      simp only [logsOnExec, List.length_nil]
      rw [if_neg]
      rintro (h | ⟨c, hc, hh⟩)
      · exact OpResult.noConfusion h
      · exact OpResult.noConfusion hh

theorem logsOnExec_one_executed (effs : List FsEff) (entry : LogEntry) (codes : List String) :
    logsOnExec ⟨OpResult.executed, effs, [entry]⟩ codes := by
  simp [logsOnExec]

theorem logsOnExec_one_fail (effs : List FsEff) (entry : LogEntry) (codes : List String)
    (c : String) (hmem : c ∈ codes) :
    logsOnExec ⟨OpResult.opError ⟨c, 500⟩, effs, [entry]⟩ codes := by
  simp only [logsOnExec]
  rw [if_pos (Or.inr ⟨c, hmem, rfl⟩)]
  rfl

theorem logsOnExec_zero_err (e : FileOpsErr) (effs : List FsEff) (codes : List String)
    (h : ¬ (∃ c ∈ codes, e = ⟨c, 500⟩)) :
    logsOnExec ⟨OpResult.opError e, effs, []⟩ codes := by
  simp only [logsOnExec, List.length_nil]
  rw [if_neg]
  rintro (h1 | ⟨c, hc, hh⟩)
  · exact OpResult.noConfusion h1
  · exact h ⟨c, hc, (by injection hh with hx; try exact hx)⟩

theorem moveExec_logsOnExec (o : FsOracle) (src dst dstParent : List Char)
    (srcInfo : FileInfo) (cp : Bool) (codes : List String)
    (hmem : "MOVE_FAILED" ∈ codes) :
    logsOnExec (moveExec o src dst dstParent srcInfo cp) codes := by
  simp only [moveExec]
  repeat' split
  all_goals first
    | exact logsOnExec_one_executed _ _ _
    | exact logsOnExec_one_fail _ _ _ _ hmem

theorem moveStage_early_codes (fs : Fs) (o : FsOracle) (hmac : List Char → List Char)
    (srcReq dstReq : ReqStr) (cp : Bool) (e : FileOpsErr) (effs : List FsEff)
    (codes : List String) (hcodes : ∀ c ∈ codes, c ≠ "STAT_FAILED")
    (h : moveStage fs o hmac srcReq dstReq cp = StageRes.early e effs) :
    ¬ (∃ c ∈ codes, e = ⟨c, 500⟩) := by
  simp only [moveStage] at h
  repeat' (split at h)
  all_goals (try exact StageRes.noConfusion h)
  all_goals (injection h with h1 h2; rintro ⟨c, hc, he⟩)
  all_goals (try (rw [← h1] at he; injection he with hcode hstat; exact absurd hstat.symm (by decide)))
  all_goals
    rw [← h1] at he
    have h3 := fileInfoOf_error _ _ _ (by assumption)
    rw [h3] at he
    injection he with hcode hstat
    exact hcodes c hc hcode.symm

theorem moveStage_gate_exec (fs : Fs) (o : FsOracle) (hmac : List Char → List Char)
    (srcReq dstReq : ReqStr) (cp : Bool) (tok : List Char) (effs0 : List FsEff)
    (exec : OpOutcome) (codes : List String) (hmem : "MOVE_FAILED" ∈ codes)
    (h : moveStage fs o hmac srcReq dstReq cp = StageRes.gate tok effs0 exec) :
    logsOnExec exec codes := by
  simp only [moveStage] at h
  repeat' (split at h)
  all_goals (try exact StageRes.noConfusion h)
  all_goals (injection h with h1 h2 h3; rw [← h3])
  all_goals exact moveExec_logsOnExec _ _ _ _ _ _ codes hmem

theorem move_logsOnExec (fs : Fs) (o : FsOracle) (hmac : List Char → List Char)
    (req : Request) : logsOnExec (moveOp fs o hmac req) ["MOVE_FAILED"] := by
  apply runStaged_logsOnExec
  · intro e effs h
    exact moveStage_early_codes fs o hmac req.src req.dst req.create_parents e effs
      ["MOVE_FAILED"] (by decide) h
  · intro tok effs0 exec h
    exact moveStage_gate_exec fs o hmac req.src req.dst req.create_parents tok effs0 exec
      ["MOVE_FAILED"] (by simp) h

theorem purgeStage_early_codes (fs : Fs) (o : FsOracle) (hmac : List Char → List Char)
    (rel : List Char) (e : FileOpsErr) (effs : List FsEff)
    (codes : List String) (hcodes : ∀ c ∈ codes, c ≠ "STAT_FAILED")
    (h : purgeStage fs o hmac rel = StageRes.early e effs) :
    ¬ (∃ c ∈ codes, e = ⟨c, 500⟩) := by
  simp only [purgeStage] at h
  repeat' (split at h)
  all_goals (try exact StageRes.noConfusion h)
  all_goals (injection h with h1 h2; rintro ⟨c, hc, he⟩)
  all_goals (try (rw [← h1] at he; injection he with hcode hstat; exact absurd hstat.symm (by decide)))
  all_goals
    rw [← h1] at he
    have h3 := fileInfoOf_error _ _ _ (by assumption)
    rw [h3] at he
    injection he with hcode hstat
    exact hcodes c hc hcode.symm

theorem purgeStage_gate_exec (fs : Fs) (o : FsOracle) (hmac : List Char → List Char)
    (rel : List Char) (tok : List Char) (effs0 : List FsEff)
    (exec : OpOutcome) (codes : List String) (hmem : "PURGE_FAILED" ∈ codes)
    (h : purgeStage fs o hmac rel = StageRes.gate tok effs0 exec) :
    logsOnExec exec codes := by
  simp only [purgeStage] at h
  repeat' (split at h)
  all_goals (try exact StageRes.noConfusion h)
  all_goals (injection h with h1 h2 h3; rw [← h3])
  all_goals first
    | exact logsOnExec_one_executed _ _ _
    | exact logsOnExec_one_fail _ _ _ _ hmem

theorem purge_logsOnExec (fs : Fs) (o : FsOracle) (hmac : List Char → List Char)
    (req : Request) (rel : List Char) :
    logsOnExec (purgeOp fs o hmac req rel) ["PURGE_FAILED"] := by
  apply runStaged_logsOnExec
  · intro e effs h
    exact purgeStage_early_codes fs o hmac rel e effs ["PURGE_FAILED"] (by decide) h
  · intro tok effs0 exec h
    exact purgeStage_gate_exec fs o hmac rel tok effs0 exec ["PURGE_FAILED"] (by simp) h

theorem archiveConfirmed_logsOnExec (fs : Fs) (o : FsOracle) (rel : List Char)
    (info : FileInfo) (entryRel dstRel : List Char) (codes : List String)
    (hmem : "ARCHIVE_FAILED" ∈ codes)
    (hcodes : ¬ (∃ c ∈ codes, FileOpsErr.mk "TRASH_SANDBOX_VIOLATION" 400 = ⟨c, 500⟩) ∧
      ¬ (∃ c ∈ codes, FileOpsErr.mk "TRASH_NOT_DIR" 409 = ⟨c, 500⟩) ∧
      ¬ (∃ c ∈ codes, FileOpsErr.mk "TRASH_CREATE_FAILED" 500 = ⟨c, 500⟩) ∧
      ¬ (∃ c ∈ codes, FileOpsErr.mk "SANDBOX_VIOLATION" 400 = ⟨c, 500⟩) ∧
      ¬ (∃ c ∈ codes, FileOpsErr.mk "TRASH_ENTRY_EXISTS" 409 = ⟨c, 500⟩)) :
    logsOnExec (archiveConfirmed fs o rel info entryRel dstRel) codes := by
  obtain ⟨hc1, hc2, hc3, hc4, hc5⟩ := hcodes
  unfold archiveConfirmed
  cases hens : ensureTrashDir fs o with
  | mk effs0 res =>
    cases res with
    | some e =>
      simp only [logsOnExec, List.length_nil]
      rw [if_neg]
      rintro (h | ⟨c, hc, hh⟩)
      · cases h
      · rcases ensureTrashDir_some fs o effs0 e hens with he | he | he <;> subst he
        · exact hc1 ⟨c, hc, (by injection hh with hx; try exact hx)⟩
        · exact hc2 ⟨c, hc, (by injection hh with hx; try exact hx)⟩
        · exact hc3 ⟨c, hc, (by injection hh with hx; try exact hx)⟩
    | none =>
      simp only []
      repeat' split
      · simp only [logsOnExec, List.length_nil]
        rw [if_neg]
        rintro (h | ⟨c, hc, hh⟩)
        · cases h
        · exact hc4 ⟨c, hc, (by injection hh with hx; try exact hx)⟩
      · simp only [logsOnExec, List.length_nil]
        rw [if_neg]
        rintro (h | ⟨c, hc, hh⟩)
        · cases h
        · exact hc5 ⟨c, hc, (by injection hh with hx; try exact hx)⟩
      · simp only [logsOnExec, List.length_nil]
        rw [if_neg]
        rintro (h | ⟨c, hc, hh⟩)
        · cases h
        · exact hc3 ⟨c, hc, (by injection hh with hx; try exact hx)⟩
      · simp only [archiveExec]
        repeat' split
        all_goals first
          | exact logsOnExec_one_executed _ _ _
          | exact logsOnExec_one_fail _ _ _ _ hmem

theorem archiveStage_early_codes (fs : Fs) (o : FsOracle) (hmac : List Char → List Char)
    (rel : List Char) (e : FileOpsErr) (effs : List FsEff)
    (codes : List String) (hcodes : ∀ c ∈ codes, c ≠ "STAT_FAILED")
    (h : archiveStage fs o hmac rel = StageRes.early e effs) :
    ¬ (∃ c ∈ codes, e = ⟨c, 500⟩) := by
  simp only [archiveStage] at h
  repeat' (split at h)
  all_goals (try exact StageRes.noConfusion h)
  all_goals (injection h with h1 h2; rintro ⟨c, hc, he⟩)
  all_goals (try (rw [← h1] at he; injection he with hcode hstat; exact absurd hstat.symm (by decide)))
  all_goals
    rw [← h1] at he
    have h3 := fileInfoOf_error _ _ _ (by assumption)
    rw [h3] at he
    injection he with hcode hstat
    exact hcodes c hc hcode.symm

theorem archiveStage_gate_exec (fs : Fs) (o : FsOracle) (hmac : List Char → List Char)
    (rel : List Char) (tok : List Char) (effs0 : List FsEff)
    (exec : OpOutcome) (codes : List String) (hmem : "ARCHIVE_FAILED" ∈ codes)
    (hcodes : ¬ (∃ c ∈ codes, FileOpsErr.mk "TRASH_SANDBOX_VIOLATION" 400 = ⟨c, 500⟩) ∧
      ¬ (∃ c ∈ codes, FileOpsErr.mk "TRASH_NOT_DIR" 409 = ⟨c, 500⟩) ∧
      ¬ (∃ c ∈ codes, FileOpsErr.mk "TRASH_CREATE_FAILED" 500 = ⟨c, 500⟩) ∧
      ¬ (∃ c ∈ codes, FileOpsErr.mk "SANDBOX_VIOLATION" 400 = ⟨c, 500⟩) ∧
      ¬ (∃ c ∈ codes, FileOpsErr.mk "TRASH_ENTRY_EXISTS" 409 = ⟨c, 500⟩))
    (h : archiveStage fs o hmac rel = StageRes.gate tok effs0 exec) :
    logsOnExec exec codes := by
  simp only [archiveStage] at h
  repeat' (split at h)
  all_goals (try exact StageRes.noConfusion h)
  all_goals (injection h with h1 h2 h3; rw [← h3])
  all_goals exact archiveConfirmed_logsOnExec fs o rel _ _ _ codes hmem hcodes

theorem archive_logsOnExec (fs : Fs) (o : FsOracle) (hmac : List Char → List Char)
    (req : Request) (rel : List Char) :
    logsOnExec (archiveOp fs o hmac req rel) ["ARCHIVE_FAILED"] := by
  apply runStaged_logsOnExec
  · intro e effs h
    exact archiveStage_early_codes fs o hmac rel e effs ["ARCHIVE_FAILED"] (by decide) h
  · intro tok effs0 exec h
    exact archiveStage_gate_exec fs o hmac rel tok effs0 exec ["ARCHIVE_FAILED"]
      (by simp) (by refine ⟨?_, ?_, ?_, ?_, ?_⟩ <;> decide) h

theorem wrapGc_logsOnExecReq (gc : GcCtx) (req : Request) (ds : ReqStaged)
    (codes : List String)
    (hearly : ∀ e, ds = ReqStaged.early e → ¬ (∃ c ∈ codes, e = ⟨c, 500⟩))
    (hdisp : ∀ st, ds = ReqStaged.dispatch st → logsOnExec (runStaged req st) codes) :
    logsOnExecReq (wrapGc gc req ds) codes := by
  cases ds with
  | early e =>
    have he := hearly e rfl
    simp only [wrapGc, logsOnExecReq, List.length_nil]
    rw [if_neg]
    rintro (h | ⟨c, hc, hh⟩)
    · cases h
    · exact he ⟨c, hc, (by injection hh with hx; try exact hx)⟩
  | uncaught =>
    simp only [wrapGc, logsOnExecReq, List.length_nil]
    rw [if_neg]
    rintro (h | ⟨c, hc, hh⟩)
    · exact OpResult.noConfusion h
    · exact OpResult.noConfusion hh
  | dispatch st =>
    have hd := hdisp st rfl
    simp only [wrapGc, logsOnExecReq]
    exact hd

theorem delete_logsOnExec (fs : Fs) (o : FsOracle) (hmac : List Char → List Char)
    (gc : GcCtx) (req : Request) :
    logsOnExecReq (deleteOp fs o hmac gc req) ["ARCHIVE_FAILED", "PURGE_FAILED"] := by
  apply wrapGc_logsOnExecReq
  · intro e h
    simp only [deleteStage] at h
    repeat' (split at h)
    all_goals (try exact ReqStaged.noConfusion h)
    all_goals (injection h with h1; rw [← h1]; decide)
  · intro st h
    simp only [deleteStage] at h
    repeat' (split at h)
    all_goals (try exact ReqStaged.noConfusion h)
    all_goals (injection h with h1)
    all_goals subst h1
    · apply runStaged_logsOnExec
      · intro e effs h2
        exact purgeStage_early_codes fs o hmac _ e effs _ (by decide) h2
      · intro tok effs0 exec h2
        exact purgeStage_gate_exec fs o hmac _ tok effs0 exec _ (by simp) h2
    · apply runStaged_logsOnExec
      · intro e effs h2
        exact archiveStage_early_codes fs o hmac _ e effs _ (by decide) h2
      · intro tok effs0 exec h2
        exact archiveStage_gate_exec fs o hmac _ tok effs0 exec _ (by simp)
          (by refine ⟨?_, ?_, ?_, ?_, ?_⟩ <;> decide) h2

theorem restoreExec_logsOnExec (o : FsOracle) (payloadRel dstRel dstParent entryDirRel : List Char)
    (info : FileInfo) (codes : List String) (hmem : "RESTORE_FAILED" ∈ codes)
    (hsv : ¬ (∃ c ∈ codes, FileOpsErr.mk "SANDBOX_VIOLATION" 400 = ⟨c, 500⟩))
    (hde : ¬ (∃ c ∈ codes, FileOpsErr.mk "DST_EXISTS" 409 = ⟨c, 500⟩)) :
    logsOnExec (restoreExec o payloadRel dstRel dstParent entryDirRel info) codes := by
  simp only [restoreExec]
  repeat' split
  all_goals first
    | exact logsOnExec_one_executed _ _ _
    | exact logsOnExec_one_fail _ _ _ _ hmem
    | exact logsOnExec_zero_err _ _ _ hsv
    | exact logsOnExec_zero_err _ _ _ hde

theorem restoreStage_early_codes (fs : Fs) (o : FsOracle) (hmac : List Char → List Char)
    (rel : List Char) (e : FileOpsErr) (effs : List FsEff)
    (codes : List String) (hcodes : ∀ c ∈ codes, c ≠ "STAT_FAILED")
    (hother : ¬ (∃ c ∈ codes, FileOpsErr.mk "INVALID_PATH" 400 = ⟨c, 500⟩) ∧
      ¬ (∃ c ∈ codes, FileOpsErr.mk "SANDBOX_VIOLATION" 400 = ⟨c, 500⟩) ∧
      ¬ (∃ c ∈ codes, FileOpsErr.mk "TRASH_ENTRY_NOT_DIR" 409 = ⟨c, 500⟩) ∧
      ¬ (∃ c ∈ codes, FileOpsErr.mk "TRASH_META_MISSING" 404 = ⟨c, 500⟩) ∧
      ¬ (∃ c ∈ codes, FileOpsErr.mk "TRASH_META_READ_FAILED" 500 = ⟨c, 500⟩) ∧
      ¬ (∃ c ∈ codes, FileOpsErr.mk "TRASH_META_INVALID" 500 = ⟨c, 500⟩) ∧
      ¬ (∃ c ∈ codes, FileOpsErr.mk "INVALID_PATH" 500 = ⟨c, 500⟩) ∧
      ¬ (∃ c ∈ codes, FileOpsErr.mk "DST_EXISTS" 409 = ⟨c, 500⟩))
    (h : restoreStage fs o hmac rel = StageRes.early e effs) :
    ¬ (∃ c ∈ codes, e = ⟨c, 500⟩) := by
  obtain ⟨ho1, ho2, ho3, ho4, ho5, ho6, ho7, ho8⟩ := hother
  simp only [restoreStage] at h
  repeat' (split at h)
  all_goals (try exact StageRes.noConfusion h)
  all_goals (injection h with h1 h2; rintro ⟨c, hc, he⟩; rw [← h1] at he)
  all_goals (try (exact ho1 ⟨c, hc, he⟩))
  all_goals (try (exact ho2 ⟨c, hc, he⟩))
  all_goals (try (exact ho3 ⟨c, hc, he⟩))
  all_goals (try (exact ho4 ⟨c, hc, he⟩))
  all_goals (try (exact ho5 ⟨c, hc, he⟩))
  all_goals (try (exact ho6 ⟨c, hc, he⟩))
  all_goals (try (exact ho7 ⟨c, hc, he⟩))
  all_goals (try (exact ho8 ⟨c, hc, he⟩))
  all_goals
    have h3 := fileInfoOf_error _ _ _ (by assumption)
    rw [h3] at he
    injection he with hcode hstat
    exact hcodes c hc hcode.symm

theorem restoreStage_gate_exec (fs : Fs) (o : FsOracle) (hmac : List Char → List Char)
    (rel : List Char) (tok : List Char) (effs0 : List FsEff)
    (exec : OpOutcome) (codes : List String) (hmem : "RESTORE_FAILED" ∈ codes)
    (hsv : ¬ (∃ c ∈ codes, FileOpsErr.mk "SANDBOX_VIOLATION" 400 = ⟨c, 500⟩))
    (hde : ¬ (∃ c ∈ codes, FileOpsErr.mk "DST_EXISTS" 409 = ⟨c, 500⟩))
    (h : restoreStage fs o hmac rel = StageRes.gate tok effs0 exec) :
    logsOnExec exec codes := by
  simp only [restoreStage] at h
  repeat' (split at h)
  all_goals (try exact StageRes.noConfusion h)
  all_goals (injection h with h1 h2 h3; rw [← h3])
  all_goals exact restoreExec_logsOnExec o _ _ _ _ _ codes hmem hsv hde

theorem restore_logsOnExec (fs : Fs) (o : FsOracle) (hmac : List Char → List Char)
    (gc : GcCtx) (req : Request) :
    logsOnExecReq (restoreOp fs o hmac gc req) ["RESTORE_FAILED"] := by
  apply wrapGc_logsOnExecReq
  · intro e h
    simp only [restorePre] at h
    repeat' (split at h)
    all_goals (try exact ReqStaged.noConfusion h)
    all_goals (injection h with h1; rw [← h1]; decide)
  · intro st h
    simp only [restorePre] at h
    repeat' (split at h)
    all_goals (try exact ReqStaged.noConfusion h)
    all_goals (injection h with h1)
    all_goals subst h1
    all_goals apply runStaged_logsOnExec
    · intro e effs h2
      exact restoreStage_early_codes fs o hmac _ e effs _ (by decide)
        (by refine ⟨?_, ?_, ?_, ?_, ?_, ?_, ?_, ?_⟩ <;> decide) h2
    · intro tok effs0 exec h2
      exact restoreStage_gate_exec fs o hmac _ tok effs0 exec _ (by simp)
        (by decide) (by decide) h2

theorem trashEmptyStage_early_codes (fs : Fs) (o : FsOracle)
    (hmac sha1 : List Char → List Char) (e : FileOpsErr) (effs : List FsEff)
    (h : trashEmptyStage fs o hmac sha1 = StageRes.early e effs) :
    ¬ (∃ c ∈ ["TRASH_EMPTY_FAILED"], e = ⟨c, 500⟩) := by
  simp only [trashEmptyStage] at h
  repeat' (split at h)
  all_goals (try exact StageRes.noConfusion h)
  all_goals (injection h with h1 h2; rintro ⟨c, hc, he⟩; rw [← h1] at he)
  all_goals simp at hc
  all_goals subst hc
  all_goals
    try (rcases ensureTrashDir_some fs o _ _ (by assumption) with hx | hx | hx <;>
      rw [hx] at he <;> injection he with hcode hstat <;> exact absurd hcode (by decide))
  all_goals (injection he with hcode hstat; exact absurd hcode (by decide))

theorem trashEmptyStage_gate_exec (fs : Fs) (o : FsOracle)
    (hmac sha1 : List Char → List Char) (tok : List Char) (effs0 : List FsEff)
    (exec : OpOutcome)
    (h : trashEmptyStage fs o hmac sha1 = StageRes.gate tok effs0 exec) :
    logsOnExec exec ["TRASH_EMPTY_FAILED"] := by
  simp only [trashEmptyStage] at h
  repeat' (split at h)
  all_goals (try exact StageRes.noConfusion h)
  all_goals (injection h with h1 h2 h3; rw [← h3])
  all_goals first
    | exact logsOnExec_one_executed _ _ _
    | exact logsOnExec_one_fail _ _ _ _ (by simp)

theorem trashEmpty_logsOnExec (fs : Fs) (o : FsOracle) (hmac sha1 : List Char → List Char)
    (gc : GcCtx) (req : Request) :
    logsOnExecReq (trashEmptyOp fs o hmac sha1 gc req) ["TRASH_EMPTY_FAILED"] := by
  apply wrapGc_logsOnExecReq
  · intro e h
    cases h
  · intro st h
    injection h with h1
    subst h1
    apply runStaged_logsOnExec
    · intro e effs h2
      exact trashEmptyStage_early_codes fs o hmac sha1 e effs h2
    · intro tok effs0 exec h2
      exact trashEmptyStage_gate_exec fs o hmac sha1 tok effs0 exec h2

/-- C3 amended: a preview appends no operation-log entry; a confirmed request
appends exactly one entry if and only if it results in `executed` or in the
operation's execution-failure error at status 500 (`MOVE_FAILED`,
`ARCHIVE_FAILED`, `PURGE_FAILED`, `RESTORE_FAILED`, `TRASH_EMPTY_FAILED`);
confirmed requests rejected by validation, conflict or token checks — and
restore executions aborted by a re-raised `FileOpsError` — append none.
Retention-GC purge entries are accounted separately (`gcLog`). -/
theorem c3_log_discipline (fs : Fs) (o : FsOracle) (hmac sha1 : List Char → List Char)
    (gc : GcCtx) (req : Request) (rel : List Char) :
    logsOnExec (moveOp fs o hmac req) ["MOVE_FAILED"] ∧
    logsOnExec (archiveOp fs o hmac req rel) ["ARCHIVE_FAILED"] ∧
    logsOnExec (purgeOp fs o hmac req rel) ["PURGE_FAILED"] ∧
    logsOnExecReq (deleteOp fs o hmac gc req) ["ARCHIVE_FAILED", "PURGE_FAILED"] ∧
    logsOnExecReq (restoreOp fs o hmac gc req) ["RESTORE_FAILED"] ∧
    logsOnExecReq (trashEmptyOp fs o hmac sha1 gc req) ["TRASH_EMPTY_FAILED"] :=
  ⟨move_logsOnExec fs o hmac req,
   archive_logsOnExec fs o hmac req rel,
   purge_logsOnExec fs o hmac req rel,
   delete_logsOnExec fs o hmac gc req,
   restore_logsOnExec fs o hmac gc req,
   trashEmpty_logsOnExec fs o hmac sha1 gc req⟩

/-- C10: when `src` and `dst` of a move normalize to the same existing path
`p` (with a well-formed destination name and a parent that is either the root
or an existing directory), the request fails early with `DST_EXISTS` (409) —
not `INVALID_MOVE` — before the confirm gate, so the outcome is the same for
previews and confirmed requests, no filesystem effect is performed and no log
entry is appended: the directory-into-itself rejection requires
`dst ≠ src`, and `dst = src` is caught by the destination-pre-exists check. -/
theorem c10_move_src_eq_dst (fs : Fs) (o : FsOracle) (hmac : List Char → List Char)
    (req : Request) (raw p : List Char) (info : FileInfo)
    (hsrc : req.src = ReqStr.str raw) (hdst : req.dst = ReqStr.str raw)
    (hnorm : normalize_rel_path raw = Except.ok p)
    (hne : p ≠ [])
    (hsb : o.sandboxAbs p = true)
    (hstat : fileInfoOf fs p = Except.ok info)
    (hname : (splitParentRel p).2 ≠ [])
    (hsbm : o.sandboxAbsMissing (splitParentRel p).1 = true)
    (hpar : (splitParentRel p).1 = [] ∨
      (fsExists fs (splitParentRel p).1 = true ∧ fsIsDir fs (splitParentRel p).1 = true))
    (hex : fsExists fs p = true) :
    moveOp fs o hmac req = ⟨OpResult.opError ⟨"DST_EXISTS", 409⟩, [], []⟩ := by
  have hstage : moveStage fs o hmac req.src req.dst req.create_parents =
      StageRes.early ⟨"DST_EXISTS", 409⟩ [] := by
    rw [hsrc, hdst]
    simp only [moveStage, hnorm, hstat]
    rw [if_neg (by simp [hne])]
    rw [if_neg (by simp [hsb])]
    rw [if_neg hname]
    rw [if_neg (by simp)]
    rw [if_neg (by simp [hsbm])]
    rw [if_neg (by
      rcases hpar with h | ⟨h1, h2⟩
      · simp [h]
      · simp [h1, h2])]
    rw [if_neg (by
      rcases hpar with h | ⟨h1, h2⟩
      · simp [h]
      · simp [h1, h2])]
    rw [if_pos hex]
  unfold moveOp
  rw [hstage]
  rfl

/-- A move request whose source and destination are both `a.txt`. -/
def reqMoveSelf : Request :=
  ⟨ReqStr.absent, ReqStr.str "a.txt".data, ReqStr.str "a.txt".data, false, true,
   ReqStr.absent⟩

theorem c10_move_src_eq_dst_witness :
    moveOp fsW oPass (fun s => s) reqMoveSelf =
      ⟨OpResult.opError ⟨"DST_EXISTS", 409⟩, [], []⟩ :=
  c10_move_src_eq_dst fsW oPass (fun s => s) reqMoveSelf "a.txt".data "a.txt".data
    ⟨false, some 5, some 1000⟩ rfl rfl rfl (by decide) rfl rfl (by decide) rfl
    (Or.inl (by decide)) rfl

/-- C5: canonical-JSON serialization of token payloads is injective — two
payloads differing in any bound field (op, src_rel_path, dst_rel_path, is_dir,
size_bytes, mtime_ms, or create_parents) serialize differently — so with the
HMAC modeled as an injective function the confirm tokens differ, and a
(nonempty) token minted for one payload is rejected as `STALE_CONFIRM_TOKEN`
when checked against the expected token of the other. -/
theorem c5_token_binding (p q : TokenPayload) (hmac : List Char → List Char)
    (hinj : Function.Injective hmac) (hne : p ≠ q) :
    hmac (canonicalJsonPayload p) ≠ hmac (canonicalJsonPayload q) ∧
    (hmac (canonicalJsonPayload p) ≠ [] →
      checkToken (ReqStr.str (hmac (canonicalJsonPayload p)))
          (hmac (canonicalJsonPayload q)) =
        some ⟨"STALE_CONFIRM_TOKEN", 409⟩) := by
  have hneq : hmac (canonicalJsonPayload p) ≠ hmac (canonicalJsonPayload q) := by
    intro h
    apply hne
    have h2 := congrArg parsePayload (hinj h)
    rw [parsePayload_round, parsePayload_round] at h2
    exact Option.some.inj h2
  refine ⟨hneq, fun hnil => ?_⟩
  show (if hmac (canonicalJsonPayload p) = [] then
          some (⟨"CONFIRM_TOKEN_REQUIRED", 400⟩ : FileOpsErr)
        else if hmac (canonicalJsonPayload p) ≠ hmac (canonicalJsonPayload q) then
          some ⟨"STALE_CONFIRM_TOKEN", 409⟩
        else none) =
      some ⟨"STALE_CONFIRM_TOKEN", 409⟩
  rw [if_neg hnil, if_pos hneq]

/-- A pair of move payloads differing only in `size_bytes`. -/
def payloadA : TokenPayload :=
  ⟨"move".data, "a.txt".data, some "b.txt".data, false, some 5, some 1000, some false⟩

def payloadB : TokenPayload :=
  ⟨"move".data, "a.txt".data, some "b.txt".data, false, some 6, some 1000, some false⟩

theorem c5_token_binding_witness :
    (fun s : List Char => s) (canonicalJsonPayload payloadA) ≠
        (fun s : List Char => s) (canonicalJsonPayload payloadB) ∧
    ((fun s : List Char => s) (canonicalJsonPayload payloadA) ≠ [] →
      checkToken (ReqStr.str ((fun s : List Char => s) (canonicalJsonPayload payloadA)))
          ((fun s : List Char => s) (canonicalJsonPayload payloadB)) =
        some ⟨"STALE_CONFIRM_TOKEN", 409⟩) :=
  c5_token_binding payloadA payloadB (fun s => s) (fun a b h => h) (by decide)

/-! ## C6: `scan_inventory` -/

structure InvItem where
  rel_path : List Char
  kind : String
  size_bytes : Option Int
  mtime_ms : Option Int
deriving DecidableEq

inductive FsNode where
  | file (name : List Char) (size : Int) (mtime : Option Int)
  | dir (name : List Char) (mtime : Option Int) (children : List FsNode)
  | link (name : List Char) (outside : Bool)
  | statFail (name : List Char)

def nodeName : FsNode → List Char
  | FsNode.file n _ _ => n
  | FsNode.dir n _ _ => n
  | FsNode.link n _ => n
  | FsNode.statFail n => n

def childRelOf (relDir name : List Char) : List Char :=
  pyReplaceBackslash (if relDir = [] then name else relDir ++ '/' :: name)

def trashSkip (childRel : List Char) : Bool :=
  pyLower (childRel.takeWhile (fun c => !(c == '/'))) == "_trash".data

def entryStep (skipTrash : Bool) (relDir : List Char) (n : FsNode) :
    List InvItem × List (String × List Char) × List (List FsNode × List Char) :=
  let childRel := childRelOf relDir (nodeName n)
  if skipTrash ∧ trashSkip childRel then ([], [], [])
  else
    match n with
    | FsNode.statFail _ => ([], [("STAT_FAILED", childRel)], [])
    | FsNode.link _ outside =>
      ([], [((if outside then "LINK_OUT_OF_BOUNDS" else "LINK_SKIPPED"), childRel)], [])
    | FsNode.file _ size mtime => ([⟨childRel, "file", some size, mtime⟩], [], [])
    | FsNode.dir _ mtime cs => ([⟨childRel, "dir", none, mtime⟩], [], [(cs, childRel)])

def processEntries (skipTrash : Bool) (relDir : List Char) :
    List FsNode → List InvItem × List (String × List Char) × List (List FsNode × List Char)
  | [] => ([], [], [])
  | n :: rest =>
    let s := entryStep skipTrash relDir n
    let r := processEntries skipTrash relDir rest
    (s.1 ++ r.1, s.2.1 ++ r.2.1, s.2.2 ++ r.2.2)

mutual
def nodeSize : FsNode → Nat
  | FsNode.dir _ _ cs => 1 + nodesSize cs
  | _ => 1
def nodesSize : List FsNode → Nat
  | [] => 0
  | n :: rest => nodeSize n + nodesSize rest
end

def stackSize : List (List FsNode × List Char) → Nat
  | [] => 0
  | f :: rest => 1 + nodesSize f.1 + stackSize rest

def scanGo (skipTrash : Bool) : Nat → List (List FsNode × List Char) →
    List InvItem × List (String × List Char)
  | _, [] => ([], [])
  | 0, _ :: _ => ([], [])
  | Nat.succ fuel, (children, relDir) :: rest =>
    let st := processEntries skipTrash relDir children
    let next := scanGo skipTrash fuel (st.2.2.reverse ++ rest)
    (st.1 ++ next.1, st.2.1 ++ next.2)

def scan_inventory (skipTrash : Bool) (rootMtime : Option Int) (children : List FsNode) :
    List InvItem × List (String × List Char) :=
  let stack0 : List (List FsNode × List Char) := [(children, [])]
  let r := scanGo skipTrash (stackSize stack0) stack0
  (⟨[], "dir", none, rootMtime⟩ :: r.1, r.2)

mutual
def treeItems (skipTrash : Bool) (relDir : List Char) : FsNode → List InvItem
  | FsNode.file nm size mtime =>
    if skipTrash ∧ trashSkip (childRelOf relDir nm) then []
    else [⟨childRelOf relDir nm, "file", some size, mtime⟩]
  | FsNode.dir nm mtime cs =>
    if skipTrash ∧ trashSkip (childRelOf relDir nm) then []
    else ⟨childRelOf relDir nm, "dir", none, mtime⟩ ::
      treeItemsList skipTrash (childRelOf relDir nm) cs
  | FsNode.link _ _ => []
  | FsNode.statFail _ => []
def treeItemsList (skipTrash : Bool) (relDir : List Char) : List FsNode → List InvItem
  | [] => []
  | n :: rest => treeItems skipTrash relDir n ++ treeItemsList skipTrash relDir rest
end

theorem stackSize_append (a b : List (List FsNode × List Char)) :
    stackSize (a ++ b) = stackSize a + stackSize b := by
  induction a with
  | nil => simp [stackSize]
  | cons f rest ih => simp [stackSize, ih]; omega

theorem stackSize_reverse (a : List (List FsNode × List Char)) :
    stackSize a.reverse = stackSize a := by
  induction a with
  | nil => rfl
  | cons f rest ih =>
    simp [List.reverse_cons, stackSize_append, stackSize, ih]
    omega

theorem processEntries_size (sk : Bool) (rel : List Char) (children : List FsNode) :
    stackSize (processEntries sk rel children).2.2 ≤ nodesSize children := by
  induction children with
  | nil => simp [processEntries, stackSize]
  | cons n rest ih =>
    simp only [processEntries, stackSize_append]
    have hn : stackSize (entryStep sk rel n).2.2 ≤ nodeSize n := by
      simp only [entryStep]
      cases n <;> split <;> simp [stackSize, nodeSize]
    simp only [nodesSize]
    omega

theorem scanGo_fuel_eq (sk : Bool) (fuel fuel2 : Nat)
    (stack : List (List FsNode × List Char))
    (h : stackSize stack ≤ fuel) (h2 : stackSize stack ≤ fuel2) :
    scanGo sk fuel stack = scanGo sk fuel2 stack := by
  induction fuel generalizing fuel2 stack with
  | zero =>
    cases stack with
    | nil => cases fuel2 <;> rfl
    | cons f rest => exact absurd h (by simp [stackSize])
  | succ fuel ih =>
    cases stack with
    | nil => cases fuel2 <;> rfl
    | cons f rest =>
      obtain ⟨children, relDir⟩ := f
      cases fuel2 with
      | zero => exact absurd h2 (by simp [stackSize])
      | succ fuel2 =>
        simp only [scanGo]
        have hs : stackSize ((processEntries sk relDir children).2.2.reverse ++ rest) ≤ fuel := by
          rw [stackSize_append, stackSize_reverse]
          have := processEntries_size sk relDir children
          simp only [stackSize] at h
          omega
        have hs2 : stackSize ((processEntries sk relDir children).2.2.reverse ++ rest) ≤ fuel2 := by
          rw [stackSize_append, stackSize_reverse]
          have := processEntries_size sk relDir children
          simp only [stackSize] at h2
          omega
        rw [ih fuel2 _ hs hs2]

theorem perm_flatMap {α β : Type} (f : α → List β) {l1 l2 : List α} (h : l1.Perm l2) :
    (l1.flatMap f).Perm (l2.flatMap f) := by
  induction h with
  | nil => simp
  | cons x h ih =>
    simp only [List.flatMap_cons]
    exact ih.append_left (f x)
  | swap x y l =>
    simp only [List.flatMap_cons]
    rw [← List.append_assoc, ← List.append_assoc]
    exact (List.perm_append_comm).append_right _
  | trans h1 h2 ih1 ih2 => exact ih1.trans ih2

theorem append_shuffle_perm {α : Type} [DecidableEq α] (a b c d : List α) :
    ((a ++ b) ++ (c ++ d)).Perm ((a ++ c) ++ (b ++ d)) := by
  rw [List.perm_iff_count]
  intro x
  simp [List.count_append]
  omega

theorem processEntries_perm (sk : Bool) (relDir : List Char) (children : List FsNode) :
    ((processEntries sk relDir children).1 ++
      ((processEntries sk relDir children).2.2.flatMap fun f => treeItemsList sk f.2 f.1)).Perm
      (treeItemsList sk relDir children) := by
  induction children with
  | nil => simp [processEntries, treeItemsList]
  | cons n rest ih =>
    simp only [processEntries, treeItemsList, List.flatMap_append]
    have hstep : (entryStep sk relDir n).1 ++
        ((entryStep sk relDir n).2.2.flatMap fun f => treeItemsList sk f.2 f.1) =
        treeItems sk relDir n := by
      cases n <;> (simp only [entryStep, treeItems, nodeName]; split <;> simp)
    have hsh := append_shuffle_perm (entryStep sk relDir n).1 (processEntries sk relDir rest).1
      ((entryStep sk relDir n).2.2.flatMap fun f => treeItemsList sk f.2 f.1)
      ((processEntries sk relDir rest).2.2.flatMap fun f => treeItemsList sk f.2 f.1)
    refine hsh.trans ?_
    rw [hstep]
    exact ih.append_left _

theorem scanGo_perm (sk : Bool) (fuel : Nat) (stack : List (List FsNode × List Char))
    (h : stackSize stack ≤ fuel) :
    ((scanGo sk fuel stack).1).Perm
      (stack.flatMap fun f => treeItemsList sk f.2 f.1) := by
  induction fuel generalizing stack with
  | zero =>
    cases stack with
    | nil => simp [scanGo]
    | cons f rest => exact absurd h (by simp [stackSize])
  | succ fuel ih =>
    cases stack with
    | nil => simp [scanGo]
    | cons f rest =>
      obtain ⟨children, relDir⟩ := f
      simp only [scanGo, List.flatMap_cons]
      have hsz : stackSize ((processEntries sk relDir children).2.2.reverse ++ rest) ≤ fuel := by
        rw [stackSize_append, stackSize_reverse]
        have := processEntries_size sk relDir children
        simp only [stackSize] at h
        omega
      have hih := ih _ hsz
      rw [List.flatMap_append] at hih
      have hrev : (((processEntries sk relDir children).2.2.reverse).flatMap
            fun f => treeItemsList sk f.2 f.1).Perm
          (((processEntries sk relDir children).2.2).flatMap fun f => treeItemsList sk f.2 f.1) :=
        perm_flatMap _ (List.reverse_perm _)
      refine (hih.append_left _).trans ?_
      refine ((hrev.append_right _).append_left _).trans ?_
      rw [← List.append_assoc]
      exact (processEntries_perm sk relDir children).append_right _

/-- C6 amended: `scan_inventory` does not sort its item list — items are
emitted in stack-DFS traversal order (counterexample `c6_counterexample`) —
but the multiset of emitted items is exactly the root item plus one item per
non-skipped, non-link, stat-ok tree entry, independent of traversal: the
output is a permutation of the structural collector over the tree. -/
theorem c6_scan_inventory_items (sk : Bool) (rm : Option Int) (children : List FsNode) :
    ((scan_inventory sk rm children).1).Perm
      (⟨[], "dir", none, rm⟩ :: treeItemsList sk [] children) := by
  unfold scan_inventory
  refine List.Perm.cons _ ?_
  have h := scanGo_perm sk (stackSize [(children, [])]) [(children, [])] (le_refl _)
  simpa using h

/-- C6 exactly as the claim states it: the items list returned by
`scan_inventory` is always sorted by `rel_path`. -/
def c6ClaimAsStated : Prop :=
  ∀ (sk : Bool) (rm : Option Int) (children : List FsNode),
    List.Pairwise (fun a b => strLeB a.rel_path b.rel_path = true)
      (scan_inventory sk rm children).1

/-- C6 as stated is false: with directory listing order `[dir b, file a]` the
emitted rel_paths are `"", "b", "a", "b/c"`, not sorted by rel_path. -/
theorem c6_counterexample : ¬ c6ClaimAsStated := by
  intro h
  have hx := h true none
    [FsNode.dir "b".data none [FsNode.file "c".data 0 none], FsNode.file "a".data 0 none]
  revert hx
  decide

/-! ## C1: `classify_inventory` (`backend/indexing/media_index.py`) -/

theorem takeWhile_eq_self_of_all (p : Char → Bool) (l : List Char)
    (h : ∀ c ∈ l, p c = true) : l.takeWhile p = l := by
  induction l with
  | nil => rfl
  | cons c cs ih =>
    rw [List.takeWhile_cons_of_pos (h c (by simp)), ih (fun x hx => h x (by simp [hx]))]

theorem dropWhile_eq_nil_of_all (p : Char → Bool) (l : List Char)
    (h : ∀ c ∈ l, p c = true) : l.dropWhile p = [] := by
  induction l with
  | nil => rfl
  | cons c cs ih =>
    rw [List.dropWhile_cons_of_pos (h c (by simp)), ih (fun x hx => h x (by simp [hx]))]

/-- `rpartition`: splitting off a slash-free last segment. -/
theorem sp_append_seg (a s : List Char) (hs : '/' ∉ s) :
    splitParentRel (a ++ '/' :: s) = (a, s) := by
  have hsall : ∀ c ∈ s.reverse, (!(c == '/')) = true := by
    intro c hc
    simp only [List.mem_reverse] at hc
    simp
    intro hx
    exact hs (hx ▸ hc)
  have hrev : (a ++ '/' :: s).reverse = s.reverse ++ '/' :: a.reverse := by
    simp
  unfold splitParentRel
  rw [hrev, takeWhile_append_all _ _ _ hsall, dropWhile_append_all _ _ _ hsall,
    List.takeWhile_cons_of_neg (by simp), List.dropWhile_cons_of_neg (by simp)]
  simp

theorem sp_noslash (g : List Char) (hg : '/' ∉ g) : splitParentRel g = ([], g) := by
  have hall : ∀ c ∈ g.reverse, (!(c == '/')) = true := by
    intro c hc
    simp only [List.mem_reverse] at hc
    simp
    intro hx
    exact hg (hx ▸ hc)
  unfold splitParentRel
  rw [takeWhile_eq_self_of_all _ _ hall, dropWhile_eq_nil_of_all _ _ hall]

theorem lastSlash_decomp (l : List Char) (h : '/' ∈ l) :
    ∃ l1 l2, l = l1 ++ '/' :: l2 ∧ '/' ∉ l2 := by
  have hrev : '/' ∈ l.reverse := List.mem_reverse.mpr h
  have hsplit := (List.takeWhile_append_dropWhile (p := fun c => !(c == '/')) (l := l.reverse)).symm
  cases hd : l.reverse.dropWhile (fun c => !(c == '/')) with
  | nil =>
    exfalso
    rw [hd, List.append_nil] at hsplit
    have : '/' ∈ l.reverse.takeWhile (fun c => !(c == '/')) := hsplit ▸ hrev
    have := List.mem_takeWhile_imp this
    simp at this
  | cons c d2 =>
    have hc : (!(c == '/')) = false := by
      have := List.head_dropWhile_not (p := fun c => !(c == '/')) (l := l.reverse)
      rw [hd] at this
      simpa using this
    have hc2 : c = '/' := by simpa using hc
    subst hc2
    refine ⟨d2.reverse, (l.reverse.takeWhile (fun c => !(c == '/'))).reverse, ?_, ?_⟩
    · rw [hd] at hsplit
      calc l = l.reverse.reverse := (List.reverse_reverse l).symm
        _ = (l.reverse.takeWhile (fun c => !(c == '/')) ++ '/' :: d2).reverse := by rw [← hsplit]
        _ = d2.reverse ++ '/' :: (l.reverse.takeWhile (fun c => !(c == '/'))).reverse := by simp
    · intro hmem
      have := List.mem_takeWhile_imp (List.mem_reverse.mp hmem)
      simp at this

theorem firstSlash_decomp (l : List Char) (h : '/' ∈ l) :
    ∃ l1 l2, l = l1 ++ '/' :: l2 ∧ '/' ∉ l1 := by
  have hsplit := (List.takeWhile_append_dropWhile (p := fun c => !(c == '/')) (l := l)).symm
  cases hd : l.dropWhile (fun c => !(c == '/')) with
  | nil =>
    exfalso
    rw [hd, List.append_nil] at hsplit
    have : '/' ∈ l.takeWhile (fun c => !(c == '/')) := hsplit ▸ h
    have := List.mem_takeWhile_imp this
    simp at this
  | cons c d2 =>
    have hc : (!(c == '/')) = false := by
      have := List.head_dropWhile_not (p := fun c => !(c == '/')) (l := l)
      rw [hd] at this
      simpa using this
    have hc2 : c = '/' := by simpa using hc
    subst hc2
    refine ⟨l.takeWhile (fun c => !(c == '/')), d2, ?_, ?_⟩
    · rw [hd] at hsplit
      exact hsplit
    · intro hmem
      have := List.mem_takeWhile_imp hmem
      simp at this

theorem sp_decomp_slash (g : List Char) (h : '/' ∈ g) :
    g = (splitParentRel g).1 ++ '/' :: (splitParentRel g).2 ∧ '/' ∉ (splitParentRel g).2 := by
  obtain ⟨l1, l2, hg, hl2⟩ := lastSlash_decomp g h
  rw [hg, sp_append_seg l1 l2 hl2]
  exact ⟨rfl, hl2⟩

theorem sp_parent_shorter (g : List Char) (hg : g ≠ []) :
    (splitParentRel g).1.length < g.length := by
  by_cases h : '/' ∈ g
  · have := (sp_decomp_slash g h).1
    conv_rhs => rw [this]
    simp
  · rw [sp_noslash g h]
    simpa using List.length_pos.mpr hg



/-! ## C1 embedding of `classify_inventory` -/

structure AlbumSummary where
  rel_path : List Char
  name : List Char
  title : List Char
  image_count : Nat
  mtime_ms : Option Int
deriving DecidableEq

structure MediaFile where
  rel_path : List Char
  folder_rel_path : List Char
  ext : List Char
  size_bytes : Option Int
  mtime_ms : Option Int
deriving DecidableEq

structure OtherFile where
  rel_path : List Char
  folder_rel_path : List Char
  ext : List Char
  size_bytes : Option Int
  mtime_ms : Option Int
  category : String
deriving DecidableEq

structure MediaIndex where
  albums : List AlbumSummary
  scattered_images : List MediaFile
  videos : List MediaFile
  games : List OtherFile
  others : List OtherFile
deriving DecidableEq

/-- A stable insertion sort modelling Python `sorted` / `list.sort`. -/
def insertLe {α : Type} (le : α → α → Bool) (x : α) : List α → List α
  | [] => [x]
  | y :: ys => if le x y then x :: y :: ys else y :: insertLe le x ys

def pySort {α : Type} (le : α → α → Bool) : List α → List α
  | [] => []
  | x :: xs => insertLe le x (pySort le xs)

/-- `_parent_rel_path`. -/
def parentRel (rel : List Char) : Option (List Char) :=
  if rel = [] then none else some (splitParentRel rel).1

/-- `os.path.splitext(rel)[1]`: the extension (with dot) of the last path
segment, empty when the segment has no dot after its leading dots. -/
def extOf (rel : List Char) : List Char :=
  let base := (splitParentRel rel).2
  let leading := base.takeWhile (fun c => c == '.')
  let rest := base.drop leading.length
  if rest.reverse.dropWhile (fun c => !(c == '.')) = [] then []
  else '.' :: (rest.reverse.takeWhile (fun c => !(c == '.'))).reverse

/-- Phase 1: keys of the `folders` dict, in item order. -/
def dirRels (items : List InvItem) : List (List Char) :=
  (items.filter (fun i => i.kind == "dir")).map (fun i => i.rel_path)

/-- The folder `mtime_ms`, as left by the last (dict-replacing) dir item. -/
def folderMtime (items : List InvItem) (f : List Char) : Option Int :=
  match (items.filter (fun i => i.kind == "dir" && i.rel_path == f)).getLast? with
  | some i => i.mtime_ms
  | none => none

/-- Phase 2: `child_folder_rel_paths` of `f` — the folders whose parent is `f`. -/
def childFolders (items : List InvItem) (f : List Char) : List (List Char) :=
  (dirRels items).filter (fun g => parentRel g == some f)

def fileItems (items : List InvItem) : List InvItem :=
  items.filter (fun i => i.kind == "file")

/-- `image_count_direct` of an existing folder `f` after phase 3. -/
def imgCountDirect (items : List InvItem) (mt : MediaTypes) (f : List Char) : Nat :=
  ((fileItems items).filter (fun i =>
    (splitParentRel i.rel_path).1 == f &&
      (mt.categorize_ext (pyLower (extOf i.rel_path)) == Category.image))).length

/-- Phase 3, `images` list: file items with an existing folder and image ext. -/
def imagesOf (items : List InvItem) (mt : MediaTypes) : List MediaFile :=
  (fileItems items).filterMap (fun i =>
    if ((splitParentRel i.rel_path).1 ∈ dirRels items) ∧
        mt.categorize_ext (pyLower (extOf i.rel_path)) = Category.image then
      some ⟨i.rel_path, (splitParentRel i.rel_path).1, pyLower (extOf i.rel_path),
        i.size_bytes, i.mtime_ms⟩
    else none)

def videosOf (items : List InvItem) (mt : MediaTypes) : List MediaFile :=
  (fileItems items).filterMap (fun i =>
    if ((splitParentRel i.rel_path).1 ∈ dirRels items) ∧
        mt.categorize_ext (pyLower (extOf i.rel_path)) = Category.video then
      some ⟨i.rel_path, (splitParentRel i.rel_path).1, pyLower (extOf i.rel_path),
        i.size_bytes, i.mtime_ms⟩
    else none)

def gamesOf (items : List InvItem) (mt : MediaTypes) : List OtherFile :=
  (fileItems items).filterMap (fun i =>
    if ((splitParentRel i.rel_path).1 ∈ dirRels items) ∧
        mt.categorize_ext (pyLower (extOf i.rel_path)) = Category.game then
      some ⟨i.rel_path, (splitParentRel i.rel_path).1, pyLower (extOf i.rel_path),
        i.size_bytes, i.mtime_ms, "game"⟩
    else none)

def othersOf (items : List InvItem) (mt : MediaTypes) : List OtherFile :=
  (fileItems items).filterMap (fun i =>
    if ((splitParentRel i.rel_path).1 ∈ dirRels items) ∧
        mt.categorize_ext (pyLower (extOf i.rel_path)) = Category.other then
      some ⟨i.rel_path, (splitParentRel i.rel_path).1, pyLower (extOf i.rel_path),
        i.size_bytes, i.mtime_ms, "other"⟩
    else none)

/-- The depth-descending sweep computing `has_image_descendant`: a folder has
one iff some child-linked folder has a direct image or recursively has one.
The recursion is on a fuel bound on the remaining depth; child-linked folders
are exactly one path level deeper, so `maxRelLen + 1` fuel always suffices. -/
def hasGo (items : List InvItem) (mt : MediaTypes) : Nat → List Char → Bool
  | 0, _ => false
  | Nat.succ fuel, f =>
    (childFolders items f).any (fun g =>
      decide (0 < imgCountDirect items mt g) || hasGo items mt fuel g)

def maxRelLen (items : List InvItem) : Nat :=
  ((dirRels items).map List.length).foldr Nat.max 0

def folderHas (items : List InvItem) (mt : MediaTypes) (f : List Char) : Bool :=
  hasGo items mt (maxRelLen items + 1) f

/-- The keys of `albums_by_rel`, in folder order. -/
def albumRels (items : List InvItem) (mt : MediaTypes) : List (List Char) :=
  (dirRels items).filter (fun f =>
    !(f == []) && decide (0 < imgCountDirect items mt f) && !(folderHas items mt f))

def albumsOf (items : List InvItem) (mt : MediaTypes) : List AlbumSummary :=
  (pySort strLeB (albumRels items mt)).map (fun f =>
    ⟨f, (splitParentRel f).2, f, imgCountDirect items mt f, folderMtime items f⟩)

/-- The ancestor-or-self walk looking for an owning album; the parent is
strictly shorter, so `length cur + 1` fuel always suffices. -/
def owningAlbum (items : List InvItem) (mt : MediaTypes) : Nat → List Char → Option (List Char)
  | 0, _ => none
  | Nat.succ fuel, cur =>
    if cur ∈ albumRels items mt then some cur
    else
      match parentRel cur with
      | none => none
      | some p => owningAlbum items mt fuel p

def scatteredOf (items : List InvItem) (mt : MediaTypes) : List MediaFile :=
  pySort (fun a b => strLeB a.rel_path b.rel_path)
    ((imagesOf items mt).filter (fun img =>
      (owningAlbum items mt (img.folder_rel_path.length + 1) img.folder_rel_path).isNone))

def classify_inventory (items : List InvItem) (mt : MediaTypes) : MediaIndex :=
  ⟨albumsOf items mt,
   scatteredOf items mt,
   pySort (fun a b => strLeB a.rel_path b.rel_path) (videosOf items mt),
   pySort (fun a b => strLeB a.rel_path b.rel_path) (gamesOf items mt),
   pySort (fun a b => strLeB a.rel_path b.rel_path) (othersOf items mt)⟩

/-- `g` is a strict rel-path descendant of `f`. -/
def isDescB (f g : List Char) : Bool :=
  if f = [] then !(g == []) else (f ++ ['/']).isPrefixOf g

def ancOrSelfB (a fr : List Char) : Bool := (a == fr) || isDescB a fr

theorem desc_nonempty {f g : List Char} (h : isDescB f g = true) : g ≠ [] := by
  unfold isDescB at h
  split at h
  · simpa using h
  · intro hg
    subst hg
    rw [List.isPrefixOf_iff_prefix] at h
    have := h.length_le
    simp at this

theorem desc_length {f g : List Char} (h : isDescB f g = true) : f.length < g.length := by
  unfold isDescB at h
  split at h
  · rename_i hf
    subst hf
    simp
    exact List.length_pos.mpr (by simpa using h)
  · rw [List.isPrefixOf_iff_prefix] at h
    have := h.length_le
    simp at this
    omega

theorem desc_trans {f g h : List Char} (h1 : isDescB f g = true) (h2 : isDescB g h = true) :
    isDescB f h = true := by
  have hh : h ≠ [] := desc_nonempty h2
  have hg : g ≠ [] := desc_nonempty h1
  unfold isDescB
  split
  · simpa using hh
  · rename_i hf
    unfold isDescB at h1 h2
    rw [if_neg hf] at h1
    rw [if_neg hg] at h2
    rw [List.isPrefixOf_iff_prefix] at h1 h2 ⊢
    rcases h2 with ⟨t, ht⟩
    rcases h1 with ⟨t2, ht2⟩
    refine ⟨t2 ++ '/' :: t, ?_⟩
    rw [← ht, ← ht2]
    simp

theorem sp_desc (g : List Char) (hg : g ≠ []) : isDescB (splitParentRel g).1 g = true := by
  by_cases hs : '/' ∈ g
  · obtain ⟨hdec, _⟩ := sp_decomp_slash g hs
    unfold isDescB
    split
    · simpa using hg
    · rw [List.isPrefixOf_iff_prefix]
      refine ⟨(splitParentRel g).2, ?_⟩
      conv_rhs => rw [hdec]
      simp
  · rw [sp_noslash g hs]
    unfold isDescB
    rw [if_pos rfl]
    simpa using hg

theorem desc_parent_step {a g : List Char} (h : isDescB a g = true) :
    a = (splitParentRel g).1 ∨ isDescB a (splitParentRel g).1 = true := by
  by_cases ha : a = []
  · subst ha
    by_cases hp : (splitParentRel g).1 = []
    · exact Or.inl hp.symm
    · right
      unfold isDescB
      rw [if_pos rfl]
      simpa using hp
  · unfold isDescB at h
    rw [if_neg ha, List.isPrefixOf_iff_prefix] at h
    rcases h with ⟨rest, hrest⟩
    rw [List.append_assoc, List.singleton_append] at hrest
    by_cases hs : '/' ∈ rest
    · obtain ⟨r1, r2, hr, hr2⟩ := lastSlash_decomp rest hs
      right
      have : g = (a ++ '/' :: r1) ++ '/' :: r2 := by
        rw [← hrest, hr]
        simp
      rw [← hrest] at this ⊢
      have hsp : splitParentRel (a ++ '/' :: rest) = (a ++ '/' :: r1, r2) := by
        rw [show a ++ '/' :: rest = (a ++ '/' :: r1) ++ '/' :: r2 from by rw [hr]; simp]
        exact sp_append_seg _ _ hr2
      rw [hsp]
      unfold isDescB
      rw [if_neg ha, List.isPrefixOf_iff_prefix]
      exact ⟨r1, by simp⟩
    · left
      rw [← hrest, sp_append_seg a rest hs]

theorem childlink_desc {f g : List Char}
    (h : parentRel g = some f) : isDescB f g = true := by
  unfold parentRel at h
  split at h
  · cases h
  · rename_i hg
    injection h with h1
    rw [← h1]
    exact sp_desc g hg

theorem ancestors_mem (items : List InvItem)
    (H1 : ∀ f ∈ dirRels items, f ≠ [] → (splitParentRel f).1 ∈ dirRels items) :
    ∀ g ∈ dirRels items, ∀ a, a ≠ [] → isDescB a g = true → a ∈ dirRels items := by
  have H : ∀ n g, g.length ≤ n → g ∈ dirRels items →
      ∀ a, a ≠ [] → isDescB a g = true → a ∈ dirRels items := by
    intro n
    induction n with
    | zero =>
      intro g hlen hg a ha hd
      have := desc_length hd
      omega
    | succ n ih =>
      intro g hlen hg a ha hd
      have hgne : g ≠ [] := desc_nonempty hd
      have hp : (splitParentRel g).1 ∈ dirRels items := H1 g hg hgne
      rcases desc_parent_step hd with he | hdp
      · exact he ▸ hp
      · have hplen : (splitParentRel g).1.length < g.length := sp_parent_shorter g hgne
        exact ih (splitParentRel g).1 (by omega) hp a ha hdp
  exact fun g hg a ha hd => H g.length g (le_refl _) hg a ha hd

theorem chain_child (items : List InvItem)
    (H1 : ∀ f ∈ dirRels items, f ≠ [] → (splitParentRel f).1 ∈ dirRels items) :
    ∀ g ∈ dirRels items, ∀ f, isDescB f g = true →
      ∃ c ∈ dirRels items, parentRel c = some f ∧ (c = g ∨ isDescB c g = true) := by
  have H : ∀ n g, g.length ≤ n → g ∈ dirRels items → ∀ f, isDescB f g = true →
      ∃ c ∈ dirRels items, parentRel c = some f ∧ (c = g ∨ isDescB c g = true) := by
    intro n
    induction n with
    | zero =>
      intro g hlen hg f hd
      have := desc_length hd
      omega
    | succ n ih =>
      intro g hlen hg f hd
      have hgne : g ≠ [] := desc_nonempty hd
      rcases desc_parent_step hd with he | hdp
      · refine ⟨g, hg, ?_, Or.inl rfl⟩
        unfold parentRel
        rw [if_neg hgne, ← he]
      · have hpne : (splitParentRel g).1 ≠ [] := by
          intro hx
          rw [hx] at hdp
          exact absurd hdp (by simp [isDescB])
        have hp : (splitParentRel g).1 ∈ dirRels items := H1 g hg hgne
        have hplen : (splitParentRel g).1.length < g.length := sp_parent_shorter g hgne
        obtain ⟨c, hc, hcp, hcg⟩ := ih (splitParentRel g).1 (by omega) hp f hdp
        refine ⟨c, hc, hcp, Or.inr ?_⟩
        rcases hcg with he2 | hdc
        · exact he2 ▸ sp_desc g hgne
        · exact desc_trans hdc (sp_desc g hgne)
  exact fun g hg f hd => H g.length g (le_refl _) hg f hd

theorem childFolders_mem {items : List InvItem} {f g : List Char} :
    g ∈ childFolders items f ↔ g ∈ dirRels items ∧ parentRel g = some f := by
  unfold childFolders
  rw [List.mem_filter]
  simp

theorem hasGo_true_imp (items : List InvItem) (mt : MediaTypes) :
    ∀ (fuel : Nat) (f : List Char), hasGo items mt fuel f = true →
      ∃ g ∈ dirRels items, isDescB f g = true ∧ 0 < imgCountDirect items mt g := by
  intro fuel
  induction fuel with
  | zero => intro f h; cases h
  | succ fuel ih =>
    intro f h
    unfold hasGo at h
    rw [List.any_eq_true] at h
    obtain ⟨g, hgmem, hgood⟩ := h
    obtain ⟨hgdir, hgpar⟩ := childFolders_mem.mp hgmem
    have hdesc : isDescB f g = true := childlink_desc hgpar
    rw [Bool.or_eq_true] at hgood
    rcases hgood with himg | hrec
    · exact ⟨g, hgdir, hdesc, by simpa using himg⟩
    · obtain ⟨g2, hg2dir, hg2desc, hg2img⟩ := ih g hrec
      exact ⟨g2, hg2dir, desc_trans hdesc hg2desc, hg2img⟩

theorem desc_imp_hasGo (items : List InvItem) (mt : MediaTypes)
    (H1 : ∀ f ∈ dirRels items, f ≠ [] → (splitParentRel f).1 ∈ dirRels items)
    (g : List Char) (hgdir : g ∈ dirRels items) (himg : 0 < imgCountDirect items mt g) :
    ∀ (d : Nat) (f : List Char), isDescB f g = true → g.length - f.length ≤ d →
      ∀ fuel, d < fuel → hasGo items mt fuel f = true := by
  intro d
  induction d using Nat.strong_induction_on with
  | _ d ih =>
    intro f hd hgap fuel hfuel
    obtain ⟨c, hcdir, hcpar, hcg⟩ := chain_child items H1 g hgdir f hd
    obtain ⟨fuel2, rfl⟩ : ∃ fuel2, fuel = fuel2 + 1 := ⟨fuel - 1, by omega⟩
    unfold hasGo
    rw [List.any_eq_true]
    refine ⟨c, childFolders_mem.mpr ⟨hcdir, hcpar⟩, ?_⟩
    rw [Bool.or_eq_true]
    rcases hcg with he | hdc
    · subst he
      left
      simpa using himg
    · right
      have hflen : f.length < c.length := desc_length (childlink_desc hcpar)
      have hclen : c.length < g.length := desc_length hdc
      exact ih (g.length - c.length) (by omega) c hdc (le_refl _) fuel2 (by omega)

theorem mem_le_foldr_max (x : Nat) (l : List Nat) (h : x ∈ l) : x ≤ l.foldr Nat.max 0 := by
  induction l with
  | nil => cases h
  | cons y ys ih =>
    simp only [List.foldr_cons]
    rcases List.mem_cons.mp h with he | hm
    · subst he
      exact Nat.le_max_left _ _
    · exact Nat.le_trans (ih hm) (Nat.le_max_right _ _)

theorem folderHas_iff (items : List InvItem) (mt : MediaTypes)
    (H1 : ∀ f ∈ dirRels items, f ≠ [] → (splitParentRel f).1 ∈ dirRels items)
    (f : List Char) :
    folderHas items mt f = true ↔
      ∃ g ∈ dirRels items, isDescB f g = true ∧ 0 < imgCountDirect items mt g := by
  constructor
  · exact hasGo_true_imp items mt _ f
  · rintro ⟨g, hgdir, hdesc, himg⟩
    have hlen : g.length ≤ maxRelLen items :=
      mem_le_foldr_max _ _ (List.mem_map_of_mem _ hgdir)
    unfold folderHas
    exact desc_imp_hasGo items mt H1 g hgdir himg (g.length - f.length) f hdesc (le_refl _)
      (maxRelLen items + 1) (by omega)

theorem insertLe_mem {α : Type} (le : α → α → Bool) (x a : α) (l : List α) :
    a ∈ insertLe le x l ↔ a = x ∨ a ∈ l := by
  induction l with
  | nil => simp [insertLe]
  | cons y ys ih =>
    unfold insertLe
    split
    · simp
    · simp [ih]
      tauto

theorem pySort_mem {α : Type} (le : α → α → Bool) (a : α) (l : List α) :
    a ∈ pySort le l ↔ a ∈ l := by
  induction l with
  | nil => simp [pySort]
  | cons x xs ih =>
    unfold pySort
    rw [insertLe_mem]
    simp [ih]

theorem albums_rel_mem (items : List InvItem) (mt : MediaTypes) (f : List Char) :
    (∃ a ∈ albumsOf items mt, a.rel_path = f) ↔ f ∈ albumRels items mt := by
  unfold albumsOf
  constructor
  · rintro ⟨a, ha, he⟩
    rw [List.mem_map] at ha
    obtain ⟨f2, hf2, hmk⟩ := ha
    rw [← hmk] at he
    simp at he
    rw [← he]
    exact (pySort_mem _ _ _).mp hf2
  · intro hf
    exact ⟨⟨f, (splitParentRel f).2, f, imgCountDirect items mt f, folderMtime items f⟩,
      List.mem_map_of_mem _ ((pySort_mem _ _ _).mpr hf), rfl⟩

theorem albumRels_mem (items : List InvItem) (mt : MediaTypes) (f : List Char) :
    f ∈ albumRels items mt ↔
      f ∈ dirRels items ∧ f ≠ [] ∧ 0 < imgCountDirect items mt f ∧
        folderHas items mt f = false := by
  unfold albumRels
  rw [List.mem_filter]
  simp
  tauto

theorem desc_nil_false (a : List Char) : isDescB a [] = false := by
  unfold isDescB
  split
  · simp
  · rw [Bool.eq_false_iff]
    intro hx
    rw [List.isPrefixOf_iff_prefix] at hx
    have := hx.length_le
    simp at this

theorem ancOrSelf_parent (cur : List Char) (hne : cur ≠ []) (a : List Char) :
    ancOrSelfB a cur = true ↔
      a = cur ∨ ancOrSelfB a (splitParentRel cur).1 = true := by
  unfold ancOrSelfB
  constructor
  · intro h
    rw [Bool.or_eq_true] at h
    rcases h with he | hd
    · exact Or.inl (by simpa using he)
    · rcases desc_parent_step hd with he | hdp
      · right
        rw [Bool.or_eq_true]
        left
        simp [he]
      · right
        rw [Bool.or_eq_true]
        right
        exact hdp
  · intro h
    rw [Bool.or_eq_true]
    rcases h with he | h2
    · left
      simp [he]
    · rw [Bool.or_eq_true] at h2
      rcases h2 with he | hd
      · right
        have : a = (splitParentRel cur).1 := by simpa using he
        rw [this]
        exact sp_desc cur hne
      · right
        exact desc_trans hd (sp_desc cur hne)

theorem owningAlbum_none_iff (items : List InvItem) (mt : MediaTypes) :
    ∀ (n : Nat) (cur : List Char), cur.length < n →
      (owningAlbum items mt n cur = none ↔
        ∀ a, ancOrSelfB a cur = true → a ∉ albumRels items mt) := by
  intro n
  induction n with
  | zero => intro cur h; omega
  | succ n ih =>
    intro cur hlen
    unfold owningAlbum
    by_cases hc : cur ∈ albumRels items mt
    · rw [if_pos hc]
      constructor
      · intro h; cases h
      · intro h
        exact absurd hc (h cur (by simp [ancOrSelfB]))
    · rw [if_neg hc]
      by_cases hne : cur = []
      · subst hne
        rw [show parentRel [] = none from rfl]
        constructor
        · intro _ a ha
          have : a = [] := by
            unfold ancOrSelfB at ha
            rw [Bool.or_eq_true] at ha
            rcases ha with he | hd
            · simpa using he
            · rw [desc_nil_false] at hd; cases hd
          rw [this]
          exact hc
        · intro _
          rfl
      · rw [show parentRel cur = some (splitParentRel cur).1 from by
          unfold parentRel; rw [if_neg hne]]
        have hplen : (splitParentRel cur).1.length < n := by
          have := sp_parent_shorter cur hne
          omega
        rw [ih _ hplen]
        constructor
        · intro h a ha
          rcases (ancOrSelf_parent cur hne a).mp ha with he | h2
          · rw [he]; exact hc
          · exact h a h2
        · intro h a ha
          exact h a ((ancOrSelf_parent cur hne a).mpr (Or.inr ha))

theorem scattered_mem (items : List InvItem) (mt : MediaTypes) (m : MediaFile) :
    m ∈ scatteredOf items mt ↔
      m ∈ imagesOf items mt ∧
        owningAlbum items mt (m.folder_rel_path.length + 1) m.folder_rel_path = none := by
  unfold scatteredOf
  rw [pySort_mem, List.mem_filter]
  simp [Option.isNone_iff_eq_none]

/-- C1 amended: with the directory set closed under parents (every non-root
directory item has its parent directory present, hypothesis `H1`), a folder
appears in `albums` iff it is a non-root folder of the inventory with at
least one direct image and no rel-path descendant folder holding a direct
image; and an image of the index appears in `scattered_images` iff no
ancestor-or-self of its containing folder appears in `albums`.  Without `H1`
the descendant sweep can miss image-bearing descendants (see
`c1_counterexample`). -/
theorem c1_classify_inventory (items : List InvItem) (mt : MediaTypes)
    (H1 : ∀ f ∈ dirRels items, f ≠ [] → (splitParentRel f).1 ∈ dirRels items) :
    (∀ f, (∃ a ∈ (classify_inventory items mt).albums, a.rel_path = f) ↔
      (f ∈ dirRels items ∧ f ≠ [] ∧ 0 < imgCountDirect items mt f ∧
        ¬ ∃ g ∈ dirRels items, isDescB f g = true ∧ 0 < imgCountDirect items mt g)) ∧
    (∀ m, m ∈ (classify_inventory items mt).scattered_images ↔
      (m ∈ imagesOf items mt ∧
        ¬ ∃ a, ancOrSelfB a m.folder_rel_path = true ∧
          ∃ al ∈ (classify_inventory items mt).albums, al.rel_path = a)) := by
  constructor
  · intro f
    rw [show (classify_inventory items mt).albums = albumsOf items mt from rfl,
      albums_rel_mem, albumRels_mem]
    constructor
    · rintro ⟨h1, h2, h3, h4⟩
      refine ⟨h1, h2, h3, ?_⟩
      intro hex
      rw [← folderHas_iff items mt H1 f] at hex
      rw [h4] at hex
      cases hex
    · rintro ⟨h1, h2, h3, h4⟩
      refine ⟨h1, h2, h3, ?_⟩
      cases hhas : folderHas items mt f
      · rfl
      · exact absurd ((folderHas_iff items mt H1 f).mp hhas) h4
  · intro m
    rw [show (classify_inventory items mt).scattered_images = scatteredOf items mt from rfl,
      scattered_mem]
    refine and_congr_right fun hm => ?_
    rw [owningAlbum_none_iff items mt _ _ (by omega)]
    constructor
    · rintro h ⟨a, hanc, hal⟩
      exact h a hanc ((albums_rel_mem items mt a).mp hal)
    · intro h a hanc hmem
      exact h ⟨a, hanc, (albums_rel_mem items mt a).mpr hmem⟩

/-- C1 exactly as the claim states it: the two iffs hold for every inventory. -/
def c1ClaimAsStated : Prop :=
  ∀ (items : List InvItem) (mt : MediaTypes),
    (∀ f, (∃ a ∈ (classify_inventory items mt).albums, a.rel_path = f) ↔
      (f ∈ dirRels items ∧ f ≠ [] ∧ 0 < imgCountDirect items mt f ∧
        ¬ ∃ g ∈ dirRels items, isDescB f g = true ∧ 0 < imgCountDirect items mt g)) ∧
    (∀ m, m ∈ (classify_inventory items mt).scattered_images ↔
      (m ∈ imagesOf items mt ∧
        ¬ ∃ a, ancOrSelfB a m.folder_rel_path = true ∧
          ∃ al ∈ (classify_inventory items mt).albums, al.rel_path = a))

/-- C1 as stated is false: with items `["", "a", "a/b/c" (dirs), "a/x.jpg",
"a/b/c/y.jpg"]` the intermediate directory `a/b` is missing, so the sweep
never links `a/b/c` under `a`: the code makes `a` an album although its
descendant folder `a/b/c` holds an image. -/
theorem c1_counterexample : ¬ c1ClaimAsStated := by
  intro h
  have hx := (h [⟨[], "dir", none, none⟩, ⟨"a".data, "dir", none, none⟩,
      ⟨"a/b/c".data, "dir", none, none⟩, ⟨"a/x.jpg".data, "file", none, none⟩,
      ⟨"a/b/c/y.jpg".data, "file", none, none⟩] ⟨[".jpg".data], [], []⟩).1 "a".data
  revert hx
  decide

def c1ItemsW : List InvItem :=
  [⟨[], "dir", none, none⟩, ⟨"a".data, "dir", none, some 7⟩,
   ⟨"a/b".data, "dir", none, none⟩, ⟨"a/b/p.jpg".data, "file", some 3, some 9⟩]

def mtJpg : MediaTypes := ⟨[".jpg".data], [], []⟩

theorem c1_classify_inventory_witness :
    (∀ f, (∃ a ∈ (classify_inventory c1ItemsW mtJpg).albums, a.rel_path = f) ↔
      (f ∈ dirRels c1ItemsW ∧ f ≠ [] ∧ 0 < imgCountDirect c1ItemsW mtJpg f ∧
        ¬ ∃ g ∈ dirRels c1ItemsW, isDescB f g = true ∧ 0 < imgCountDirect c1ItemsW mtJpg g)) ∧
    (∀ m, m ∈ (classify_inventory c1ItemsW mtJpg).scattered_images ↔
      (m ∈ imagesOf c1ItemsW mtJpg ∧
        ¬ ∃ a, ancOrSelfB a m.folder_rel_path = true ∧
          ∃ al ∈ (classify_inventory c1ItemsW mtJpg).albums, al.rel_path = a)) :=
  c1_classify_inventory c1ItemsW mtJpg (by decide)

end PMM
